import Mathlib

/-!
Verification development for the PiXY segmentation & calibration engine.

This file gives a shallow embedding, over exact rational arithmetic, of the
algorithmic core of the repository:

* `tables.py`       : `_fit_similarity_2d`, `_fit_plane_z`, `_apply_similarity_2d`,
                      `_apply_plane_z`, `_decimals_for_sig` and the calibration part
                      of `populate_tables` (reference collection, flip handling,
                      model solving, rounding, residual cells);
* `Util.py`         : `kmeans_posterize`, `max_decimal_places`, `round_to_decimals`;
* `CalcCentroid.py` : `get_centroids` (area filter, histogram accumulator, boundary
                      contours) and `_split_by_neck_separation` (erosion cores plus
                      the bounded marker-propagation loop);
* `Ui.py`           : `export_centroids` (header and per-centroid rows).

Modelling conventions.  Python floats are modelled by `ℚ` (exact arithmetic; the
spec's "within floating-point tolerance" becomes exact equality).  Calls into
external libraries that are not part of this repository are modelled as oracle
arguments together with their documented mathematical specification:
`np.linalg.svd` becomes an `SVD2` argument constrained by `svdSpec`,
`np.linalg.lstsq` becomes a candidate solution constrained by `lstsqSpec`
(least-squares minimiser, minimum-norm among minimisers), `np.sqrt` (used only
for the reported RMS and residual magnitudes) becomes a function argument, and
`cv2` image operations (erosion, connected components, k-means) become function
arguments.  Exception handling (`try/except`) is modelled with `Except`/`Option`
values.  Cell texts of the Qt tables are modelled by their numeric value
(`Option ℚ`, `none` meaning a blank/absent cell).
-/

/-- Repeated application of a function, used to count full-image passes. -/
def iterApply (f : α → α) : ℕ → α → α
  | 0, a => a
  | n + 1, a => iterApply f n (f a)

/-- A 2-vector of rationals, modelling a pixel or stage XY position. -/
structure Vec2 where
  x : ℚ
  y : ℚ
deriving DecidableEq, Repr

def Vec2.add (u v : Vec2) : Vec2 := ⟨u.x + v.x, u.y + v.y⟩

def Vec2.sub (u v : Vec2) : Vec2 := ⟨u.x - v.x, u.y - v.y⟩

def Vec2.smul (c : ℚ) (v : Vec2) : Vec2 := ⟨c * v.x, c * v.y⟩

/-- Cross product (z-component) of two 2-vectors. -/
def Vec2.cross (u v : Vec2) : ℚ := u.x * v.y - u.y * v.x

/-- A 2×2 rational matrix `[[a, b], [c, d]]` (row major). -/
structure Mat2 where
  a : ℚ
  b : ℚ
  c : ℚ
  d : ℚ
deriving DecidableEq, Repr

def Mat2.mul (M N : Mat2) : Mat2 :=
  ⟨M.a * N.a + M.b * N.c, M.a * N.b + M.b * N.d,
   M.c * N.a + M.d * N.c, M.c * N.b + M.d * N.d⟩

instance : Mul Mat2 := ⟨Mat2.mul⟩

def Mat2.transpose (M : Mat2) : Mat2 := ⟨M.a, M.c, M.b, M.d⟩

def Mat2.det (M : Mat2) : ℚ := M.a * M.d - M.b * M.c

def Mat2.trace (M : Mat2) : ℚ := M.a + M.d

def Mat2.mulVec (M : Mat2) (v : Vec2) : Vec2 :=
  ⟨M.a * v.x + M.b * v.y, M.c * v.x + M.d * v.y⟩

def Mat2.id : Mat2 := ⟨1, 0, 0, 1⟩

def Mat2.diag (p q : ℚ) : Mat2 := ⟨p, 0, 0, q⟩

def Mat2.smul (c : ℚ) (M : Mat2) : Mat2 := ⟨c * M.a, c * M.b, c * M.c, c * M.d⟩

/-- Orthogonality of a 2×2 matrix, `Mᵀ M = I`. -/
def Mat2.isOrtho (M : Mat2) : Prop := M.transpose * M = Mat2.id

/-- The code line `Vt[-1, :] *= -1.0`: negate the last row of a 2×2 matrix. -/
def flipLastRow (M : Mat2) : Mat2 := ⟨M.a, M.b, -M.c, -M.d⟩

/-- A fitted 2-D similarity transform `q = s·R·p + t`. -/
structure Sim2 where
  s : ℚ
  R : Mat2
  t : Vec2
deriving DecidableEq, Repr

/-- Plane coefficients `(a, b, c)` for `Z = a·u + b·v + c`. -/
structure Plane3 where
  a : ℚ
  b : ℚ
  c : ℚ
deriving DecidableEq, Repr

/-- Sum of `x·x` over a point list (used for centred second moments). -/
def Sxx (l : List Vec2) : ℚ := (l.map fun v => v.x * v.x).sum

/-- Sum of `x·y` over a point list. -/
def Sxy (l : List Vec2) : ℚ := (l.map fun v => v.x * v.y).sum

/-- Sum of `y·y` over a point list. -/
def Syy (l : List Vec2) : ℚ := (l.map fun v => v.y * v.y).sum

/-- Mean of a point list, `np.mean(P, axis=0)`. -/
def centroidOf (l : List Vec2) : Vec2 :=
  ⟨(l.map Vec2.x).sum / l.length, (l.map Vec2.y).sum / l.length⟩

/-- The centred point list `P - muP`. -/
def centered (l : List Vec2) : List Vec2 := l.map fun p => p.sub (centroidOf l)

/-- Cross covariance `C = (Xᵀ Y) / n` of the centred lists, as in
`_fit_similarity_2d`. -/
def covMat (P Q : List Vec2) : Mat2 :=
  let X := centered P
  let Y := centered Q
  let n : ℚ := P.length
  let Z := X.zip Y
  ⟨(Z.map fun pq => pq.1.x * pq.2.x).sum / n, (Z.map fun pq => pq.1.x * pq.2.y).sum / n,
   (Z.map fun pq => pq.1.y * pq.2.x).sum / n, (Z.map fun pq => pq.1.y * pq.2.y).sum / n⟩

/-- The source variance `varP = np.mean(np.sum(X * X, axis=1))`. -/
def varOf (P : List Vec2) : ℚ :=
  ((centered P).map fun v => v.x * v.x + v.y * v.y).sum / P.length

/-- Result of `np.linalg.svd(C)` on a 2×2 matrix: `U`, the singular values
`(s1, s2)` and `Vt`.  Supplied as an oracle argument; `svdSpec` states the
guarantees numpy documents for it. -/
structure SVD2 where
  U : Mat2
  s1 : ℚ
  s2 : ℚ
  Vt : Mat2
deriving DecidableEq, Repr

/-- Specification of `np.linalg.svd` on `C`: `U` and `Vt` orthogonal,
singular values non-negative and in descending order, and
`C = U · diag(s1, s2) · Vt`. -/
def svdSpec (C : Mat2) (d : SVD2) : Prop :=
  d.U.isOrtho ∧ d.Vt.isOrtho ∧ d.s2 ≤ d.s1 ∧ 0 ≤ d.s2 ∧
    C = d.U * Mat2.diag d.s1 d.s2 * d.Vt

/-- The `tables.py` function `_fit_similarity_2d(P, Q)`: a Procrustes-style
similarity fit.  `svd` is the oracle result of `np.linalg.svd` on the cross
covariance; shape errors and the degenerate-variance error are the two
`raise ValueError` paths of the source. -/
def _fit_similarity_2d (P Q : List Vec2) (svd : SVD2) : Except String Sim2 :=
  if P.length ≠ Q.length ∨ P.length < 2 then .error "Need at least 2 point pairs"
  else
    let muP := centroidOf P
    let muQ := centroidOf Q
    let R0 := svd.Vt.transpose * svd.U.transpose
    let R := if R0.det < 0 then (flipLastRow svd.Vt).transpose * svd.U.transpose else R0
    let v := varOf P
    if v ≤ 0 then .error "Degenerate configuration"
    else
      let s := (svd.s1 + svd.s2) / v
      .ok ⟨s, R, muQ.sub (Vec2.smul s (R.mulVec muP))⟩

/-- The `tables.py` function `_apply_similarity_2d` on a single point:
`s * (R p) + t` (a row of `s * (P @ R.T) + t`). -/
def _apply_similarity_2d (m : Sim2) (p : Vec2) : Vec2 :=
  (Vec2.smul m.s (m.R.mulVec p)).add m.t

/-- The `tables.py` function `_apply_plane_z` on a single point:
`a·u + b·v + c` (a row of `A @ coef`). -/
def _apply_plane_z (co : Plane3) (p : Vec2) : ℚ := co.a * p.x + co.b * p.y + co.c

/-- Squared residual of a candidate plane on the data, `‖A·coef - z‖²`. -/
def err2 (uv : List Vec2) (z : List ℚ) (co : Plane3) : ℚ :=
  ((uv.zip z).map fun pz => (_apply_plane_z co pz.1 - pz.2) ^ 2).sum

/-- Specification of `np.linalg.lstsq(A, z)`: the returned coefficients
minimise `‖A·coef - z‖²`, and among the minimisers have minimal norm. -/
def lstsqSpec (uv : List Vec2) (z : List ℚ) (co : Plane3) : Prop :=
  (∀ c2 : Plane3, err2 uv z co ≤ err2 uv z c2) ∧
    ∀ c2 : Plane3, err2 uv z c2 ≤ err2 uv z co →
      co.a ^ 2 + co.b ^ 2 + co.c ^ 2 ≤ c2.a ^ 2 + c2.b ^ 2 + c2.c ^ 2

/-- The `tables.py` function `_fit_plane_z(uv, z)`: shape check, then the
ordinary least squares solve, whose result `ls` is the oracle output of
`np.linalg.lstsq` (constrained by `lstsqSpec` in the theorems). -/
def _fit_plane_z (uv : List Vec2) (z : List ℚ) (ls : Plane3) : Except String Plane3 :=
  if uv.length ≠ z.length ∨ uv.length < 3 then .error "Need at least 3 points"
  else .ok ls

/-- The local function `_fit_for(P)` of `populate_tables`: fit the XY
similarity and the Z plane, compute the combined 3-D residuals and their
RMS.  `sqrtO` models `np.sqrt`; the `err.size` guard of the source is dead
code here because `_fit_plane_z` has already required at least 3 points. -/
def _fit_for (P Txy : List Vec2) (Tz : List ℚ) (svd : SVD2) (ls : Plane3)
    (sqrtO : ℚ → ℚ) : Except String (Sim2 × Plane3 × ℚ) := do
  let sim ← _fit_similarity_2d P Txy svd
  let co ← _fit_plane_z P Tz ls
  let errs := (P.zip (Txy.zip Tz)).map fun pt =>
    let pr := _apply_similarity_2d sim pt.1
    let pz := _apply_plane_z co pt.1
    (pt.2.1.x - pr.x) ^ 2 + (pt.2.1.y - pr.y) ^ 2 + (pt.2.2 - pz) ^ 2
  let msq := errs.sum / (P.length : ℚ)
  return (sim, co, sqrtO msq)

/-- The flip mode combo of the UI; any string other than `"flip"`/`"normal"`
falls through to the `auto` branch in the source. -/
inductive FlipMode where
  | auto : FlipMode
  | normal : FlipMode
  | flip : FlipMode
deriving DecidableEq, Repr

/-- Negate the pixel U axis of every point, the code line `P[:, 0] *= -1.0`. -/
def mirrorU (l : List Vec2) : List Vec2 := l.map fun p => ⟨-p.x, p.y⟩

/-- Oracle bundle for one run of the calibration solver: the two possible
`np.linalg.svd` results (for the unmirrored and mirrored candidate), the two
`np.linalg.lstsq` results, and `np.sqrt`. -/
structure FitOracles where
  svd0 : SVD2
  svd1 : SVD2
  ls0 : Plane3
  ls1 : Plane3
  sqrtO : ℚ → ℚ

/-- The winning calibration model `(s, R, t, coef_z, flipped)`. -/
structure CalibModel where
  sim : Sim2
  coz : Plane3
  flipped : Bool
deriving DecidableEq, Repr

/-- Model solving of `populate_tables`: requires at least 3 valid reference
pairs, then fits the forced candidate (`normal`/`flip`) or both candidates
(`auto`, keeping the lower RMS, flip winning only on strict inequality).
Any exception inside the `try` block yields `model = None`. -/
def solveModel (refUV : List Vec2) (refXYZ : List (ℚ × ℚ × ℚ)) (mode : FlipMode)
    (O : FitOracles) : Option CalibModel :=
  if refUV.length < 3 then none
  else
    let Txy := refXYZ.map fun t => Vec2.mk t.1 t.2.1
    let Tz := refXYZ.map fun t => t.2.2
    match mode with
    | .flip =>
        match _fit_for (mirrorU refUV) Txy Tz O.svd1 O.ls1 O.sqrtO with
        | .ok (sim, co, _) => some ⟨sim, co, true⟩
        | .error _ => none
    | .normal =>
        match _fit_for refUV Txy Tz O.svd0 O.ls0 O.sqrtO with
        | .ok (sim, co, _) => some ⟨sim, co, false⟩
        | .error _ => none
    | .auto =>
        match _fit_for refUV Txy Tz O.svd0 O.ls0 O.sqrtO,
              _fit_for (mirrorU refUV) Txy Tz O.svd1 O.ls1 O.sqrtO with
        | .ok (sim0, co0, rms0), .ok (sim1, co1, rms1) =>
            if rms1 < rms0 then some ⟨sim1, co1, true⟩ else some ⟨sim0, co0, false⟩
        | .ok _, .error _ => none
        | .error _, _ => none

/-- Generator used to state noise-free claims: the exact similarity image
`t0 + s0·R0·p` of a pixel point. -/
def genSim (s0 : ℚ) (R0 : Mat2) (t0 : Vec2) (p : Vec2) : Vec2 :=
  ⟨s0 * (R0.a * p.x + R0.b * p.y) + t0.x, s0 * (R0.c * p.x + R0.d * p.y) + t0.y⟩

/-- A point list is non-collinear when it contains three points not on a
common line. -/
def NonCollinear (l : List Vec2) : Prop :=
  ∃ p q r, p ∈ l ∧ q ∈ l ∧ r ∈ l ∧ (q.sub p).cross (r.sub p) ≠ 0

/-- Round half to even, the rounding used by Python's `round` and `np.round`
for a value exactly between two integers. -/
def roundHalfEven (q : ℚ) : ℤ :=
  let f := ⌊q⌋
  let fr := q - f
  if fr < 1/2 then f
  else if 1/2 < fr then f + 1
  else if f % 2 = 0 then f else f + 1

/-- The `Util.py` function `round_to_decimals(arr, dp)` on one value:
`np.round(q, dp)`. -/
def round_to_decimals (q : ℚ) (dp : ℕ) : ℚ :=
  (roundHalfEven (q * 10 ^ dp) : ℚ) / 10 ^ dp

/-- The `Util.py` function `max_decimal_places(values)`: scientific notation
counts as 3, otherwise the number of characters after the last dot; the
maximum over the list (0 when no entry has a fractional part). -/
def max_decimal_places (values : List String) : ℕ :=
  values.foldl
    (fun acc s =>
      if s.contains 'e' ∨ s.contains 'E' then max acc 3
      else if s.contains '.' then max acc (((s.splitOn ".").getLast?.getD "").length)
      else acc)
    0

/-- Maximum absolute value of a list, `np.nanmax(np.abs(a))`, 0 for an empty
list (the `if a.size else 0.0` guard). -/
def maxAbs (l : List ℚ) : ℚ := (l.map fun q => |q|).foldr max 0

/-- The helper `_decimals_for_sig(arr, sig=2, cap=4)` of `populate_tables`:
number of decimals so that the largest magnitude shows `sig` significant
digits, clamped to `[0, cap]`; 3 when the column is all zero.
`int(math.floor(math.log10(maxabs)))` is `Int.log 10` on positive rationals. -/
def _decimals_for_sig (arr : List ℚ) (sig : ℕ := 2) (cap : ℕ := 4) : ℕ :=
  let maxabs := maxAbs arr
  if maxabs = 0 then 3
  else (max 0 (min (cap : ℤ) ((sig : ℤ) - 1 - Int.log 10 maxabs))).toNat

/-- Display-value rounding used for both `Calc.*` and residual cells:
`dp > 0` prints with `dp` decimals (value rounded at `dp` places), otherwise
`str(int(round(val)))`. -/
def dispRound (q : ℚ) (dp : ℕ) : ℚ :=
  if 0 < dp then round_to_decimals q dp else (roundHalfEven q : ℚ)

/-- One typed stage observation cell: the raw text the user typed, and the
result of parsing it as a number (`none` when blank or unparseable).  The
Python `float(...)`-with-`try` parse is abstracted into the `val` field. -/
structure ObsCell where
  str : String
  val : Option ℚ
deriving DecidableEq, Repr

/-- One reference slot's typed observation `(x, y, z)`. -/
structure Obs3 where
  x : ObsCell
  y : ObsCell
  z : ObsCell
deriving DecidableEq, Repr

/-- Data collected from the valid reference slots, in slot order: pixel
positions, parsed stage triples, the slot indices used, and the raw strings
per axis (used for the display-precision inference). -/
structure RefData where
  uv : List Vec2
  xyz : List (ℚ × ℚ × ℚ)
  cols : List ℕ
  xs : List String
  ys : List String
  zs : List String
deriving Repr

/-- Reference collection loop of `populate_tables`: a slot contributes iff
its pixel position is set and all three stage values parse as numbers. -/
def collectRefs (refPts : List (Option Vec2)) (refObs : List Obs3) (totalCols : ℕ) :
    RefData :=
  (List.range totalCols).foldl
    (fun acc c =>
      match refPts.getD c none, refObs.getD c ⟨⟨"", none⟩, ⟨"", none⟩, ⟨"", none⟩⟩ with
      | some pt, obs =>
          match obs.x.val, obs.y.val, obs.z.val with
          | some X, some Y, some Z =>
              ⟨acc.uv ++ [pt], acc.xyz ++ [(X, Y, Z)], acc.cols ++ [c],
               acc.xs ++ [obs.x.str], acc.ys ++ [obs.y.str], acc.zs ++ [obs.z.str]⟩
          | _, _, _ => acc
      | none, _ => acc)
    ⟨[], [], [], [], [], []⟩

/-- Display precision for a predicted axis:
`max_decimal_places(obs_vals) if obs_vals else 0`. -/
def dpOf (l : List String) : ℕ := if l.isEmpty then 0 else max_decimal_places l

/-- The `Calc.X/Y/Z` cell values for every centroid (group, x, y): negate U
when the model is flipped, apply the similarity and the plane, and round each
axis at the precision inferred from the typed observations. -/
def calcCells (centroids : List (ℕ × ℚ × ℚ)) (m : CalibModel)
    (dpx dpy dpz : ℕ) : List (ℚ × ℚ × ℚ) :=
  centroids.map fun cent =>
    let u : ℚ := cent.2.1
    let v : ℚ := cent.2.2
    let p : Vec2 := ⟨if m.flipped then -u else u, v⟩
    let pr := _apply_similarity_2d m.sim p
    let pz := _apply_plane_z m.coz p
    (dispRound pr.x dpx, dispRound pr.y dpy, dispRound pz dpz)

/-- Raw (unrounded) residuals `observed - predicted` per valid reference
point, the `res` array of `populate_tables`. -/
def residRaw (uv : List Vec2) (xyz : List (ℚ × ℚ × ℚ)) (m : CalibModel) :
    List (ℚ × ℚ × ℚ) :=
  (uv.zip xyz).map fun pt =>
    let p : Vec2 := ⟨if m.flipped then -pt.1.x else pt.1.x, pt.1.y⟩
    let pr := _apply_similarity_2d m.sim p
    let pz := _apply_plane_z m.coz p
    (pt.2.1 - pr.x, pt.2.2.1 - pr.y, pt.2.2.2 - pz)

/-- The four residual rows (`Res.X/Y/Z/|R|`) of the left table: one optional
entry per slot column, set only for the used (valid) columns, each rounded at
the per-column `_decimals_for_sig` precision.  `sqrtO` models `np.sqrt` in
the magnitude column. -/
def residCells (data : RefData) (m : CalibModel) (sqrtO : ℚ → ℚ) (totalCols : ℕ) :
    List (Option (ℚ × ℚ × ℚ × ℚ)) :=
  let res := residRaw data.uv data.xyz m
  let dprx := _decimals_for_sig (res.map fun r => r.1)
  let dpry := _decimals_for_sig (res.map fun r => r.2.1)
  let dprz := _decimals_for_sig (res.map fun r => r.2.2)
  let mags := res.map fun r => sqrtO (r.1 ^ 2 + r.2.1 ^ 2 + r.2.2 ^ 2)
  let dpmag := _decimals_for_sig mags
  let entries := (data.cols.zip (res.zip mags)).map fun ce =>
    (ce.1, dispRound ce.2.1.1 dprx, dispRound ce.2.1.2.1 dpry,
     dispRound ce.2.1.2.2 dprz, dispRound ce.2.2 dpmag)
  (List.range totalCols).map fun c =>
    match entries.find? (fun e => e.1 = c) with
    | some e => some (e.2.1, e.2.2.1, e.2.2.2.1, e.2.2.2.2)
    | none => none

/-- The calibration-related outputs of one `populate_tables` run: the model
(if any), the `Calc.*` cell values per centroid and the residual cell values
per reference column; `none` is a blank cell. -/
structure CalibResult where
  model : Option CalibModel
  calcv : List (Option (ℚ × ℚ × ℚ))
  resid : List (Option (ℚ × ℚ × ℚ × ℚ))
deriving Repr

/-- The calibration part of `populate_tables`: collect valid references,
solve the model (10 visible columns), and fill the `Calc.*` and residual
cells; when no model is produced every such cell stays blank. -/
def runCalib (refPts : List (Option Vec2)) (refObs : List Obs3)
    (centroids : List (ℕ × ℚ × ℚ)) (mode : FlipMode) (O : FitOracles) : CalibResult :=
  let totalCols := 10
  let data := collectRefs refPts refObs totalCols
  let model := solveModel data.uv data.xyz mode O
  match model with
  | none => ⟨none, centroids.map fun _ => none, (List.range totalCols).map fun _ => none⟩
  | some m =>
      let dpx := dpOf data.xs
      let dpy := dpOf data.ys
      let dpz := dpOf data.zs
      ⟨some m, (calcCells centroids m dpx dpy dpz).map some,
       if data.cols.isEmpty then (List.range totalCols).map fun _ => none
       else residCells data m O.sqrtO totalCols⟩

/-- The right (centroid) table of `populate_tables`, as a row/column cell map:
5 rows (`X`, `Y`, `Calc.X`, `Calc.Y`, `Calc.Z`), one column per centroid.
Rows 0 and 1 hold the raw pixel coordinates as `str(int(round(.)))`; rows
2-4 hold the `Calc.*` values when the model exists.  Any other index is an
absent item (`QTableWidget.item` returns `None`). -/
def tableRight (centroids : List (ℕ × ℚ × ℚ)) (calcv : List (Option (ℚ × ℚ × ℚ))) :
    ℕ → ℕ → Option ℚ :=
  fun r c =>
    if c < centroids.length then
      let cent := centroids.getD c (0, 0, 0)
      if r = 0 then some (roundHalfEven cent.2.1 : ℚ)
      else if r = 1 then some (roundHalfEven cent.2.2 : ℚ)
      else if r = 2 then (calcv.getD c none).map fun t => t.1
      else if r = 3 then (calcv.getD c none).map fun t => t.2.1
      else if r = 4 then (calcv.getD c none).map fun t => t.2.2
      else none
    else none

/-- One data row of the exported text: `<1-based index>,<group>,<sx>,<sy>,<sz>`
with the three stage fields taken from table items (blank when absent). -/
structure ExpRow where
  no : ℕ
  g : ℕ
  sx : Option ℚ
  sy : Option ℚ
  sz : Option ℚ
deriving DecidableEq, Repr

/-- The `Ui.py` method `export_centroids`: writes the header line, then one
row per centroid, reading the stage fields from table rows 4, 5 and 6 of the
(5-row) centroid table. -/
def export_centroids (centroids : List (ℕ × ℚ × ℚ)) (tbl : ℕ → ℕ → Option ℚ)
    (colCount : ℕ) : String × List ExpRow :=
  ("No,Group,Stage X,Stage Y,Stage Z",
   centroids.enum.map fun ic =>
     if colCount > ic.1 then
       ⟨ic.1 + 1, ic.2.1, tbl 4 ic.1, tbl 5 ic.1, tbl 6 ic.1⟩
     else ⟨ic.1 + 1, ic.2.1, none, none, none⟩)

/-- An image buffer: dimensions plus a row-major list of byte triples (BGR). -/
structure ImgBuf where
  h : ℕ
  w : ℕ
  pix : List (ℕ × ℕ × ℕ)
deriving DecidableEq, Repr

/-- Oracle type for `cv2.kmeans` on the flattened pixel data: maps
(data, K, RNG state) to (labels, float centers, advanced RNG state).  As a
Lean function it is deterministic in those inputs, which is exactly the
determinism guarantee the fixed seed relies on. -/
abbrev KmeansFn := List (ℕ × ℕ × ℕ) → ℕ → ℕ → List ℕ × List (ℚ × ℚ × ℚ) × ℕ

/-- Byte cast `np.uint8` of a center coordinate. -/
def u8cast (q : ℚ) : ℕ := (⌊q⌋).toNat % 256

/-- The `Util.py` function `kmeans_posterize(img_bgr, levels)`: flatten the
pixels, clamp `K = max(1, levels)`, seed the RNG with the fixed constant
12345 (`cv2.setRNGSeed`), run k-means, cast the centers to bytes and map
every pixel to its cluster's center, reshaped to the input dimensions.  The
incoming RNG state `rng` is the hidden global state; the seeding makes it
unused. -/
def kmeans_posterize (km : KmeansFn) (img : ImgBuf) (levels : ℕ) (rng : ℕ) :
    ImgBuf × ℕ :=
  let Z := img.pix
  let K := max 1 levels
  let seeded := 12345
  let out := km Z K seeded
  let res := out.1.map fun l =>
    let c := out.2.1.getD l (0, 0, 0)
    (u8cast c.1, u8cast c.2.1, u8cast c.2.2)
  (⟨img.h, img.w, res⟩, out.2.2)

/-- One connected component as produced by
`cv2.connectedComponentsWithStats`: pixel-count area, centroid, and an
abstract mask handle used by the splitter, the re-labeler and the contour
accumulator. -/
structure CompR where
  area : ℕ
  cx : ℚ
  cy : ℚ
  mask : ℕ
deriving DecidableEq, Repr

/-- The area filter of `get_centroids`: a region is kept iff
`min_area ≤ area` and (`max_area` unset or `area ≤ max_area`), the
complement of the two `continue` guards. -/
def keepArea (minA : ℕ) (maxA : Option ℕ) (a : ℕ) : Bool :=
  decide (minA ≤ a) && (match maxA with | none => true | some m => decide (a ≤ m))

/-- The primitive regions iterated by `get_centroids` for one parameter set:
per color group (1-based), per component, either the component itself (no
split) or all re-labeled sub-components of every split mask. -/
def primRegions (groups : List (List CompR)) (splitFn : ℕ → ℕ → List ℕ)
    (relabel : ℕ → List CompR) (neck : ℕ) : List (ℕ × CompR) :=
  groups.enum.flatMap fun gcomps =>
    gcomps.2.flatMap fun comp =>
      let sm := splitFn comp.mask neck
      if sm.length ≤ 1 then [(gcomps.1 + 1, comp)]
      else sm.flatMap fun m => (relabel m).map fun sc => (gcomps.1 + 1, sc)

/-- The `CalcCentroid.py` method `get_centroids`, abstracted over the
`cv2`-produced per-color component lists (`groups`), the neck splitter
(`splitFn`), the per-split-mask re-labeling (`relabel`) and the contour
extractor (`contour`).  Returns the centroid list, the raw-area histogram
accumulator (`last_component_areas`) and the accumulated boundary contours
(`last_boundary_mask` as the list of drawn contours). -/
def get_centroids (groups : List (List CompR)) (splitFn : ℕ → ℕ → List ℕ)
    (relabel : ℕ → List CompR) (contour : ℕ → ℕ) (minA : ℕ) (maxA : Option ℕ)
    (neck : ℕ) : List (ℕ × ℚ × ℚ) × List ℕ × List ℕ :=
  groups.enum.foldl
    (fun acc gcomps =>
      gcomps.2.foldl
        (fun acc2 comp =>
          let gno := gcomps.1 + 1
          let sm := splitFn comp.mask neck
          if sm.length ≤ 1 then
            let hist := acc2.2.1 ++ (if 0 < comp.area then [comp.area] else [])
            if keepArea minA maxA comp.area then
              (acc2.1 ++ [(gno, comp.cx, comp.cy)], hist, acc2.2.2 ++ [contour comp.mask])
            else (acc2.1, hist, acc2.2.2)
          else
            sm.foldl
              (fun acc3 m =>
                (relabel m).foldl
                  (fun acc4 sc =>
                    let hist := acc4.2.1 ++ (if 0 < sc.area then [sc.area] else [])
                    if keepArea minA maxA sc.area then
                      (acc4.1 ++ [(gno, sc.cx, sc.cy)], hist, acc4.2.2 ++ [contour sc.mask])
                    else (acc4.1, hist, acc4.2.2))
                  acc3)
              acc2)
        acc)
    ([], [], [])

/-- A 2-D array of naturals (mask values or marker labels), row major. -/
abbrev Grid := List (List ℕ)

/-- Read a cell, 0 outside the stored data. -/
def getCell (g : Grid) (i j : ℕ) : ℕ := (g.getD i []).getD j 0

/-- Write a cell (no-op outside the stored data, like the bounds-checked
numpy assignment). -/
def setCell (g : Grid) (i j : ℕ) (v : ℕ) : Grid := g.set i ((g.getD i []).set j v)

/-- Build an `h × w` grid from a cell function. -/
def buildGrid (h w : ℕ) (f : ℕ → ℕ → ℕ) : Grid :=
  (List.range h).map fun i => (List.range w).map fun j => f i j

/-- Total of all cells, `arr.sum()`. -/
def gridSum (g : Grid) : ℕ := (g.map fun row => row.sum).sum

/-- The fixed neighbor scan order `(-1,0), (1,0), (0,-1), (0,1)`
(up, down, left, right) of the marker-propagation loop. -/
def neighOrder : List (ℤ × ℤ) := [(-1, 0), (1, 0), (0, -1), (0, 1)]

/-- Value of the neighbor at offset `d` in the (partially updated) marker
grid, 0 when out of bounds. -/
def neighborVal (cur : Grid) (h w i j : ℕ) (d : ℤ × ℤ) : ℕ :=
  let ni := (i : ℤ) + d.1
  let nj := (j : ℤ) + d.2
  if 0 ≤ ni ∧ ni < (h : ℤ) ∧ 0 ≤ nj ∧ nj < (w : ℤ) then getCell cur ni.toNat nj.toNat
  else 0

/-- First positive value in a list, 0 if none: the `break` on the first
already-labeled neighbor. -/
def firstPos : List ℕ → ℕ
  | [] => 0
  | v :: rest => if 0 < v then v else firstPos rest

/-- One cell step of a propagation pass: a pixel of the component that was
unmarked before the pass receives the label of its first labeled 4-neighbor
read from the in-progress grid `cur` (the in-place update of
`new_markers`). -/
def passCell (comp pre : Grid) (h w : ℕ) (cur : Grid) (ij : ℕ × ℕ) : Grid :=
  if 0 < getCell comp ij.1 ij.2 ∧ getCell pre ij.1 ij.2 = 0 then
    let v := firstPos (neighOrder.map (neighborVal cur h w ij.1 ij.2))
    if 0 < v then setCell cur ij.1 ij.2 v else cur
  else cur

/-- Row-major index list of an `h × w` image. -/
def rowMajor (h w : ℕ) : List (ℕ × ℕ) :=
  (List.range h).flatMap fun i => (List.range w).map fun j => (i, j)

/-- One full-image propagation pass over all pixels in row-major order. -/
def onePass (comp : Grid) (h w : ℕ) (m : Grid) : Grid :=
  (rowMajor h w).foldl (passCell comp m h w) m

/-- `unmarked.any()`: is some component pixel still unlabeled? -/
def anyUnmarked (comp m : Grid) (h w : ℕ) : Bool :=
  (rowMajor h w).any fun ij =>
    decide (0 < getCell comp ij.1 ij.2 ∧ getCell m ij.1 ij.2 = 0)

/-- The bounded marker-propagation loop
`for iteration in range(n): if not unmarked.any(): break; <one pass>`. -/
def propagate (comp : Grid) (h w : ℕ) : ℕ → Grid → Grid
  | 0, m => m
  | n + 1, m => if anyUnmarked comp m h w then propagate comp h w n (onePass comp h w m) else m

/-- Initial markers: the core label where the eroded mask has a core id in
`[1, numCores)`, then forced to 0 wherever the component mask is 0. -/
def initMarkers (comp labels : Grid) (numCores h w : ℕ) : Grid :=
  buildGrid h w fun i j =>
    if getCell comp i j = 0 then 0
    else
      let l := getCell labels i j
      if 1 ≤ l ∧ l < numCores then l else 0

/-- Split sub-mask of one core id:
`((markers == core_id) & (comp_mask > 0)).astype(np.uint8) * 255`. -/
def maskOf (markers comp : Grid) (cid h w : ℕ) : Grid :=
  buildGrid h w fun i j =>
    if getCell markers i j = cid ∧ 0 < getCell comp i j then 255 else 0

/-- Oracles for the `cv2` calls of `_split_by_neck_separation`: erosion with
the 3×3 elliptical kernel, and 4-connectivity connected components of the
eroded mask.  A `none` result models the exceptional path caught by the
surrounding `try/except`. -/
structure SplitOracles where
  erode : Grid → ℕ → Option Grid
  cc : Grid → Option (ℕ × Grid)

/-- The `CalcCentroid.py` method `_split_by_neck_separation(comp_mask,
neck_separation)`: no-op for `neck_separation = 0` or an empty mask; erode,
find cores, no split when fewer than 2 cores; otherwise seed markers from
the cores, run at most 20 marker-propagation passes, and emit one sub-mask
per core keeping only the non-empty ones.  Every failure path returns the
original mask as a single-element list. -/
def _split_by_neck_separation (comp : Grid) (neck : ℕ) (O : SplitOracles) : List Grid :=
  if neck = 0 ∨ gridSum comp = 0 then [comp]
  else
    match O.erode comp neck with
    | none => [comp]
    | some er =>
        match O.cc er with
        | none => [comp]
        | some nl =>
            if nl.1 < 3 then [comp]
            else
              let h := comp.length
              let w := (comp.getD 0 []).length
              let m0 := initMarkers comp nl.2 nl.1 h w
              let mfin := propagate comp h w 20 m0
              let masks := (((List.range nl.1).drop 1).map fun cid =>
                maskOf mfin comp cid h w).filter fun m => 0 < gridSum m
              if masks.isEmpty then [comp] else masks

/-- Disjointness of two grids viewed as pixel sets. -/
def gridsDisjoint (g1 g2 : Grid) : Prop :=
  ∀ i j, ¬ (0 < getCell g1 i j ∧ 0 < getCell g2 i j)

/-- Pixel-set inclusion of two grids. -/
def gridSubset (g1 g2 : Grid) : Prop :=
  ∀ i j, 0 < getCell g1 i j → 0 < getCell g2 i j

/-- The mean squared 3-D residual computed inside `_fit_for` for a fitted
candidate (the quantity under the `np.sqrt` of the reported RMS). -/
def msqOf (P Txy : List Vec2) (Tz : List ℚ) (sim : Sim2) (co : Plane3) : ℚ :=
  ((P.zip (Txy.zip Tz)).map fun pt =>
    let pr := _apply_similarity_2d sim pt.1
    let pz := _apply_plane_z co pt.1
    (pt.2.1.x - pr.x) ^ 2 + (pt.2.1.y - pr.y) ^ 2 + (pt.2.2 - pz) ^ 2).sum
    / (P.length : ℚ)

/-! Theorems.  First a toolbox of list-sum and 2×2 matrix lemmas, then the
recovery theory for the Procrustes fit, then the claim theorems. -/

theorem sum_map_add {α : Type} (l : List α) (f g : α → ℚ) :
    (l.map fun p => f p + g p).sum = (l.map f).sum + (l.map g).sum := by
  induction l with
  | nil => simp
  | cons a t ih => simp [ih]; ring

theorem sum_map_mul {α : Type} (c : ℚ) (l : List α) (f : α → ℚ) :
    (l.map fun p => c * f p).sum = c * (l.map f).sum := by
  induction l with
  | nil => simp
  | cons a t ih => simp [ih]; ring

theorem sum_map_const {α : Type} (l : List α) (c : ℚ) :
    (l.map fun _ => c).sum = l.length * c := by
  induction l with
  | nil => simp
  | cons a t ih => simp [ih]; ring

theorem sum_map_nonneg {α : Type} (l : List α) (f : α → ℚ) (h : ∀ x ∈ l, 0 ≤ f x) :
    0 ≤ (l.map f).sum := by
  induction l with
  | nil => simp
  | cons a t ih =>
      simp only [List.map_cons, List.sum_cons]
      have h1 := h a (by simp)
      have h2 := ih fun x hx => h x (by simp [hx])
      linarith

theorem sum_map_eq_zero {α : Type} (l : List α) (f : α → ℚ)
    (hn : ∀ x ∈ l, 0 ≤ f x) (hz : (l.map f).sum = 0) : ∀ x ∈ l, f x = 0 := by
  induction l with
  | nil => simp
  | cons a t ih =>
      simp only [List.map_cons, List.sum_cons] at hz
      have h1 := hn a (by simp)
      have h2 := sum_map_nonneg t f fun x hx => hn x (by simp [hx])
      intro x hx
      rcases List.mem_cons.mp hx with h | h
      · subst h; linarith
      · exact ih (fun y hy => hn y (by simp [hy])) (by linarith) x h

theorem sum_map_member_le {α : Type} (l : List α) (f : α → ℚ)
    (hn : ∀ x ∈ l, 0 ≤ f x) {x : α} (hx : x ∈ l) : f x ≤ (l.map f).sum := by
  induction l with
  | nil => simp at hx
  | cons a t ih =>
      simp only [List.map_cons, List.sum_cons]
      have h2 := sum_map_nonneg t f fun y hy => hn y (by simp [hy])
      rcases List.mem_cons.mp hx with h | h
      · subst h; linarith
      · have := ih (fun y hy => hn y (by simp [hy])) h
        have h1 := hn a (by simp)
        linarith

theorem mat2_eq_iff {A B : Mat2} :
    A = B ↔ A.a = B.a ∧ A.b = B.b ∧ A.c = B.c ∧ A.d = B.d := by
  cases A; cases B
  simp [Mat2.mk.injEq]

theorem mat2_mul_def (A B : Mat2) : A * B = Mat2.mul A B := rfl

theorem mat2_mul_assoc (A B C : Mat2) : A * B * C = A * (B * C) := by
  simp only [mat2_mul_def, Mat2.mul, mat2_eq_iff]
  refine ⟨by ring, by ring, by ring, by ring⟩

theorem mat2_transpose_mul (A B : Mat2) :
    (A * B).transpose = B.transpose * A.transpose := by
  simp only [mat2_mul_def, Mat2.mul, Mat2.transpose, mat2_eq_iff]
  refine ⟨by ring, by ring, by ring, by ring⟩

theorem mat2_transpose_transpose (A : Mat2) : A.transpose.transpose = A := rfl

theorem mat2_det_mul (A B : Mat2) : (A * B).det = A.det * B.det := by
  simp only [mat2_mul_def, Mat2.mul, Mat2.det]
  ring

theorem mat2_det_transpose (A : Mat2) : A.transpose.det = A.det := by
  simp only [Mat2.transpose, Mat2.det]
  ring

theorem mat2_one_mul (A : Mat2) : Mat2.id * A = A := by
  simp only [mat2_mul_def, Mat2.mul, Mat2.id, mat2_eq_iff]
  refine ⟨by ring, by ring, by ring, by ring⟩

theorem mat2_mul_one (A : Mat2) : A * Mat2.id = A := by
  simp only [mat2_mul_def, Mat2.mul, Mat2.id, mat2_eq_iff]
  refine ⟨by ring, by ring, by ring, by ring⟩

theorem mat2_trace_mul_comm (A B : Mat2) : (A * B).trace = (B * A).trace := by
  simp only [mat2_mul_def, Mat2.mul, Mat2.trace]
  ring

theorem mat2_det_ortho_sq {U : Mat2} (h : U.isOrtho) : U.det * U.det = 1 := by
  have := congrArg Mat2.det h
  rw [mat2_det_mul, mat2_det_transpose] at this
  simpa [Mat2.det, Mat2.id] using this

theorem mat2_ortho_comm {U : Mat2} (h : U.isOrtho) : U * U.transpose = Mat2.id := by
  have hd := mat2_det_ortho_sq h
  simp only [Mat2.isOrtho, mat2_mul_def, Mat2.mul, Mat2.transpose, Mat2.id, mat2_eq_iff,
    Mat2.det] at h hd ⊢
  obtain ⟨h1, h2, h3, h4⟩ := h
  have hb : U.b = -U.c * (U.a * U.d - U.b * U.c) := by
    linear_combination U.a * h2 - U.b * h1
  have hdd : U.d = U.a * (U.a * U.d - U.b * U.c) := by
    linear_combination U.c * h2 - U.d * h1
  refine ⟨?_, ?_, ?_, ?_⟩
  · linear_combination (U.b - U.c * (U.a * U.d - U.b * U.c)) * hb + U.c * U.c * hd + h1
  · linear_combination U.d * hb - U.c * (U.a * U.d - U.b * U.c) * hdd - U.a * U.c * hd
  · linear_combination U.d * hb - U.c * (U.a * U.d - U.b * U.c) * hdd - U.a * U.c * hd
  · linear_combination (U.d + U.a * (U.a * U.d - U.b * U.c)) * hdd + U.a * U.a * hd + h1

theorem mat2_left_cancel {M X Y : Mat2} (hdet : M.det ≠ 0) (h : M * X = M * Y) :
    X = Y := by
  simp only [mat2_mul_def, Mat2.mul, mat2_eq_iff] at h
  obtain ⟨e1, e2, e3, e4⟩ := h
  simp only [Mat2.det] at hdet
  rw [mat2_eq_iff]
  refine ⟨?_, ?_, ?_, ?_⟩
  · apply mul_left_cancel₀ hdet
    linear_combination M.d * e1 - M.b * e3
  · apply mul_left_cancel₀ hdet
    linear_combination M.d * e2 - M.b * e4
  · apply mul_left_cancel₀ hdet
    linear_combination M.a * e3 - M.c * e1
  · apply mul_left_cancel₀ hdet
    linear_combination M.a * e4 - M.c * e2

theorem mat2_psd_sqrt_unique {A B : Mat2}
    (hAs : A.b = A.c) (hBs : B.b = B.c)
    (hAtr : 0 ≤ A.trace) (hBtr : 0 ≤ B.trace)
    (hAdet : 0 ≤ A.det) (hBdet : 0 ≤ B.det)
    (hsq : A * A = B * B) (hpd : 0 < (A * A).det) : A = B := by
  have hdet2 := congrArg Mat2.det hsq
  rw [mat2_det_mul, mat2_det_mul] at hdet2
  have hpd2 : 0 < A.det * A.det := by rwa [mat2_det_mul] at hpd
  have hdA : 0 < A.det := by
    rcases lt_or_eq_of_le hAdet with h | h
    · exact h
    · exfalso; rw [← h] at hpd2; simp at hpd2
  have hδ : A.det = B.det := by
    have hz : (A.det - B.det) * (A.det + B.det) = 0 := by linear_combination hdet2
    rcases mul_eq_zero.mp hz with h | h
    · linarith
    · have hdB : 0 ≤ B.det := hBdet
      linarith
  have hdB : 0 < B.det := hδ ▸ hdA
  simp only [mat2_mul_def, Mat2.mul, mat2_eq_iff] at hsq
  obtain ⟨E1, E2, E3, E4⟩ := hsq
  simp only [Mat2.det] at hδ hdA
  simp only [Mat2.trace] at hAtr hBtr
  have hτsq : (A.a + A.d) ^ 2 = (B.a + B.d) ^ 2 := by
    linear_combination E1 + E4 + 2 * hδ
  have hτ : A.a + A.d = B.a + B.d := by
    have hz : ((A.a + A.d) - (B.a + B.d)) * ((A.a + A.d) + (B.a + B.d)) = 0 := by
      linear_combination hτsq
    rcases mul_eq_zero.mp hz with h | h
    · linarith
    · linarith
  have hτ0 : A.a + A.d ≠ 0 := by
    intro h0
    have hda : A.d = -A.a := by linarith
    have hbc : A.b * A.c = A.c * A.c := by rw [hAs]
    rw [hda] at hdA
    nlinarith [sq_nonneg A.a, sq_nonneg A.c, hbc]
  have ha : A.a = B.a := by
    have key : (A.a + A.d) * A.a = (B.a + B.d) * B.a := by linear_combination E1 + hδ
    rw [← hτ] at key
    exact mul_left_cancel₀ hτ0 key
  have hb : A.b = B.b := by
    have key : (A.a + A.d) * A.b = (B.a + B.d) * B.b := by linear_combination E2
    rw [← hτ] at key
    exact mul_left_cancel₀ hτ0 key
  have hd : A.d = B.d := by
    have key : (A.a + A.d) * A.d = (B.a + B.d) * B.d := by linear_combination E4 + hδ
    rw [← hτ] at key
    exact mul_left_cancel₀ hτ0 key
  rw [mat2_eq_iff]
  exact ⟨ha, hb, by rw [← hAs, ← hBs, hb], hd⟩

theorem vec2_eq_iff {u v : Vec2} : u = v ↔ u.x = v.x ∧ u.y = v.y := by
  cases u; cases v
  simp [Vec2.mk.injEq]

theorem sum_map_affine (l : List Vec2) (α β γ : ℚ) :
    (l.map fun p => α * p.x + β * p.y + γ).sum
      = α * (l.map Vec2.x).sum + β * (l.map Vec2.y).sum + l.length * γ := by
  induction l with
  | nil => simp
  | cons a t ih => simp [ih]; ring

theorem sum_map_comb2 {α : Type} (l : List α) (c1 c2 : ℚ) (f g : α → ℚ) :
    (l.map fun v => c1 * f v + c2 * g v).sum
      = c1 * (l.map f).sum + c2 * (l.map g).sum := by
  induction l with
  | nil => simp
  | cons a t ih => simp [ih]; ring

theorem sum_map_comb3 {α : Type} (l : List α) (c1 c2 c3 : ℚ) (f g h : α → ℚ) :
    (l.map fun v => c1 * f v + c2 * g v + c3 * h v).sum
      = c1 * (l.map f).sum + c2 * (l.map g).sum + c3 * (l.map h).sum := by
  induction l with
  | nil => simp
  | cons a t ih => simp [ih]; ring

theorem length_centered (l : List Vec2) : (centered l).length = l.length := by
  simp [centered]

theorem centroid_map_gen (l : List Vec2) (hl : 0 < l.length) (s0 : ℚ) (R0 : Mat2)
    (t0 : Vec2) :
    centroidOf (l.map (genSim s0 R0 t0)) = genSim s0 R0 t0 (centroidOf l) := by
  have hn : (l.length : ℚ) ≠ 0 := by
    exact_mod_cast Nat.pos_iff_ne_zero.mp hl
  rw [vec2_eq_iff]
  constructor
  · show ((l.map (genSim s0 R0 t0)).map Vec2.x).sum / ((l.map (genSim s0 R0 t0)).length) = _
    rw [List.length_map, List.map_map]
    have hf : (Vec2.x ∘ genSim s0 R0 t0)
        = fun p : Vec2 => (s0 * R0.a) * p.x + (s0 * R0.b) * p.y + t0.x := by
      funext p
      simp [genSim]
      ring
    rw [hf, sum_map_affine]
    show _ = s0 * (R0.a * ((l.map Vec2.x).sum / l.length) + R0.b * ((l.map Vec2.y).sum / l.length)) + t0.x
    field_simp
    ring
  · show ((l.map (genSim s0 R0 t0)).map Vec2.y).sum / ((l.map (genSim s0 R0 t0)).length) = _
    rw [List.length_map, List.map_map]
    have hf : (Vec2.y ∘ genSim s0 R0 t0)
        = fun p : Vec2 => (s0 * R0.c) * p.x + (s0 * R0.d) * p.y + t0.y := by
      funext p
      simp [genSim]
      ring
    rw [hf, sum_map_affine]
    show _ = s0 * (R0.c * ((l.map Vec2.x).sum / l.length) + R0.d * ((l.map Vec2.y).sum / l.length)) + t0.y
    field_simp
    ring

theorem centered_map_gen (l : List Vec2) (hl : 0 < l.length) (s0 : ℚ) (R0 : Mat2)
    (t0 : Vec2) :
    centered (l.map (genSim s0 R0 t0))
      = (centered l).map fun v =>
          Vec2.mk (s0 * (R0.a * v.x + R0.b * v.y)) (s0 * (R0.c * v.x + R0.d * v.y)) := by
  unfold centered
  rw [centroid_map_gen l hl, List.map_map, List.map_map]
  apply List.map_congr_left
  intro p _
  simp [genSim, Vec2.sub, vec2_eq_iff]
  constructor <;> ring

theorem covMat_gen (P : List Vec2) (hl : 0 < P.length) (s0 : ℚ) (R0 : Mat2)
    (t0 : Vec2) :
    covMat P (P.map (genSim s0 R0 t0))
      = Mat2.smul (s0 / P.length)
          (Mat2.mk (Sxx (centered P)) (Sxy (centered P)) (Sxy (centered P))
            (Syy (centered P)) * R0.transpose) := by
  unfold covMat
  dsimp only
  rw [centered_map_gen P hl]
  have hz : (centered P).zip ((centered P).map fun v =>
      Vec2.mk (s0 * (R0.a * v.x + R0.b * v.y)) (s0 * (R0.c * v.x + R0.d * v.y)))
      = (centered P).map fun v =>
          (v, Vec2.mk (s0 * (R0.a * v.x + R0.b * v.y)) (s0 * (R0.c * v.x + R0.d * v.y))) := by
    have := List.zip_map' (id : Vec2 → Vec2)
      (fun v => Vec2.mk (s0 * (R0.a * v.x + R0.b * v.y)) (s0 * (R0.c * v.x + R0.d * v.y)))
      (centered P)
    simpa using this
  rw [hz]
  rw [List.map_map, List.map_map, List.map_map, List.map_map]
  simp only [mat2_mul_def, Mat2.mul, Mat2.smul, Mat2.transpose, mat2_eq_iff]
  refine ⟨?_, ?_, ?_, ?_⟩
  · have hf : ((fun pq : Vec2 × Vec2 => pq.1.x * pq.2.x) ∘ fun v : Vec2 =>
        (v, Vec2.mk (s0 * (R0.a * v.x + R0.b * v.y)) (s0 * (R0.c * v.x + R0.d * v.y))))
        = fun v : Vec2 => (s0 * R0.a) * (v.x * v.x) + (s0 * R0.b) * (v.x * v.y) := by
      funext v
      simp
      ring
    rw [hf, sum_map_comb2]
    show _ = s0 / (P.length : ℚ) * (Sxx (centered P) * R0.a + Sxy (centered P) * R0.b)
    unfold Sxx Sxy
    ring
  · have hf : ((fun pq : Vec2 × Vec2 => pq.1.x * pq.2.y) ∘ fun v : Vec2 =>
        (v, Vec2.mk (s0 * (R0.a * v.x + R0.b * v.y)) (s0 * (R0.c * v.x + R0.d * v.y))))
        = fun v : Vec2 => (s0 * R0.c) * (v.x * v.x) + (s0 * R0.d) * (v.x * v.y) := by
      funext v
      simp
      ring
    rw [hf, sum_map_comb2]
    show _ = s0 / (P.length : ℚ) * (Sxx (centered P) * R0.c + Sxy (centered P) * R0.d)
    unfold Sxx Sxy
    ring
  · have hf : ((fun pq : Vec2 × Vec2 => pq.1.y * pq.2.x) ∘ fun v : Vec2 =>
        (v, Vec2.mk (s0 * (R0.a * v.x + R0.b * v.y)) (s0 * (R0.c * v.x + R0.d * v.y))))
        = fun v : Vec2 => (s0 * R0.a) * (v.x * v.y) + (s0 * R0.b) * (v.y * v.y) := by
      funext v
      simp
      ring
    rw [hf, sum_map_comb2]
    show _ = s0 / (P.length : ℚ) * (Sxy (centered P) * R0.a + Syy (centered P) * R0.b)
    unfold Sxy Syy
    ring
  · have hf : ((fun pq : Vec2 × Vec2 => pq.1.y * pq.2.y) ∘ fun v : Vec2 =>
        (v, Vec2.mk (s0 * (R0.a * v.x + R0.b * v.y)) (s0 * (R0.c * v.x + R0.d * v.y))))
        = fun v : Vec2 => (s0 * R0.c) * (v.x * v.y) + (s0 * R0.d) * (v.y * v.y) := by
      funext v
      simp
      ring
    rw [hf, sum_map_comb2]
    show _ = s0 / (P.length : ℚ) * (Sxy (centered P) * R0.c + Syy (centered P) * R0.d)
    unfold Sxy Syy
    ring

theorem varOf_eq (P : List Vec2) :
    varOf P = (Sxx (centered P) + Syy (centered P)) / P.length := by
  unfold varOf Sxx Syy
  congr 1
  have hf : (fun v : Vec2 => v.x * v.x + v.y * v.y)
      = fun v : Vec2 => (1 : ℚ) * (v.x * v.x) + (1 : ℚ) * (v.y * v.y) := by
    funext v
    ring
  rw [hf, sum_map_comb2]
  ring

theorem gram_step (v : Vec2) (t : List Vec2) :
    Sxx (v :: t) * Syy (v :: t) - Sxy (v :: t) * Sxy (v :: t)
      = (Sxx t * Syy t - Sxy t * Sxy t) + (t.map fun w => v.cross w ^ 2).sum := by
  have hx : Sxx (v :: t) = v.x * v.x + Sxx t := by simp [Sxx]
  have hy : Syy (v :: t) = v.y * v.y + Syy t := by simp [Syy]
  have hxy : Sxy (v :: t) = v.x * v.y + Sxy t := by simp [Sxy]
  have hc : (t.map fun w => v.cross w ^ 2).sum
      = (v.x * v.x) * Syy t + (-2 * (v.x * v.y)) * Sxy t + (v.y * v.y) * Sxx t := by
    have hf : (fun w : Vec2 => v.cross w ^ 2)
        = fun w : Vec2 => (v.x * v.x) * (w.y * w.y) + (-2 * (v.x * v.y)) * (w.x * w.y)
            + (v.y * v.y) * (w.x * w.x) := by
      funext w
      simp [Vec2.cross]
      ring
    rw [hf, sum_map_comb3]
    unfold Sxx Sxy Syy
    ring
  rw [hx, hy, hxy, hc]
  ring

theorem gram_nonneg (l : List Vec2) : 0 ≤ Sxx l * Syy l - Sxy l * Sxy l := by
  induction l with
  | nil => simp [Sxx, Syy, Sxy]
  | cons v t ih =>
      rw [gram_step]
      have hs : 0 ≤ (t.map fun w => v.cross w ^ 2).sum :=
        sum_map_nonneg t _ fun w _ => sq_nonneg _
      linarith

theorem gram_pos {l : List Vec2} {u w : Vec2} (hu : u ∈ l) (hw : w ∈ l)
    (hc : u.cross w ≠ 0) : 0 < Sxx l * Syy l - Sxy l * Sxy l := by
  induction l with
  | nil => simp at hu
  | cons v t ih =>
      rw [gram_step]
      have hDt := gram_nonneg t
      rcases List.mem_cons.mp hu with huv | hut
      · rcases List.mem_cons.mp hw with hwv | hwt
        · exfalso
          apply hc
          rw [huv, hwv]
          unfold Vec2.cross
          ring
        · have hmem : v.cross w ^ 2 ≤ (t.map fun z => v.cross z ^ 2).sum :=
            sum_map_member_le t _ (fun z _ => sq_nonneg _) hwt
          have hpos : 0 < v.cross w ^ 2 := by
            have : v.cross w ≠ 0 := by rw [← huv]; exact hc
            positivity
          linarith
      · rcases List.mem_cons.mp hw with hwv | hwt
        · have hvc : v.cross u ≠ 0 := by
            intro h0
            apply hc
            rw [hwv]
            unfold Vec2.cross at h0 ⊢
            linarith
          have hmem : v.cross u ^ 2 ≤ (t.map fun z => v.cross z ^ 2).sum :=
            sum_map_member_le t _ (fun z _ => sq_nonneg _) hut
          have hpos : 0 < v.cross u ^ 2 := by positivity
          linarith
        · have := ih hut hwt
          have hs : 0 ≤ (t.map fun z => v.cross z ^ 2).sum :=
            sum_map_nonneg t _ fun z _ => sq_nonneg _
          linarith

theorem noncollinear_exists_pair {l : List Vec2} (h : NonCollinear l) :
    ∃ u w, u ∈ centered l ∧ w ∈ centered l ∧ u.cross w ≠ 0 := by
  obtain ⟨p, q, r, hp, hq, hr, hc⟩ := h
  by_contra hn
  push_neg at hn
  have hqr := hn (q.sub (centroidOf l)) (r.sub (centroidOf l))
    (List.mem_map_of_mem _ hq) (List.mem_map_of_mem _ hr)
  have hqp := hn (q.sub (centroidOf l)) (p.sub (centroidOf l))
    (List.mem_map_of_mem _ hq) (List.mem_map_of_mem _ hp)
  have hpr := hn (p.sub (centroidOf l)) (r.sub (centroidOf l))
    (List.mem_map_of_mem _ hp) (List.mem_map_of_mem _ hr)
  apply hc
  simp [Vec2.cross, Vec2.sub] at hqr hqp hpr ⊢
  linear_combination hqr - hqp - hpr

theorem mat2_smul_mul (c : ℚ) (M N : Mat2) :
    Mat2.smul c (M * N) = Mat2.smul c M * N := by
  simp only [mat2_mul_def, Mat2.mul, Mat2.smul, mat2_eq_iff]
  refine ⟨by ring, by ring, by ring, by ring⟩

theorem mat2_transpose_smul (c : ℚ) (M : Mat2) :
    (Mat2.smul c M).transpose = Mat2.smul c M.transpose := by
  simp only [Mat2.transpose, Mat2.smul, mat2_eq_iff]

theorem mat2_det_smul (c : ℚ) (M : Mat2) :
    (Mat2.smul c M).det = c ^ 2 * M.det := by
  simp only [Mat2.det, Mat2.smul]
  ring

theorem mat2_diag_transpose (p q : ℚ) : (Mat2.diag p q).transpose = Mat2.diag p q := rfl

theorem mat2_diag_trace (p q : ℚ) : (Mat2.diag p q).trace = p + q := by
  simp [Mat2.diag, Mat2.trace]

theorem mat2_diag_det (p q : ℚ) : (Mat2.diag p q).det = p * q := by
  simp [Mat2.diag, Mat2.det]

theorem mat2_middle_cancel {U : Mat2} (h : U.transpose * U = Mat2.id) (A B : Mat2) :
    A * U.transpose * (U * B) = A * B := by
  rw [mat2_mul_assoc, ← mat2_mul_assoc U.transpose U B, h, mat2_one_mul]

theorem mat2_middle_cancel2 {U : Mat2} (h : U * U.transpose = Mat2.id) (A B : Mat2) :
    A * U * (U.transpose * B) = A * B := by
  rw [mat2_mul_assoc, ← mat2_mul_assoc U U.transpose B, h, mat2_one_mul]

theorem sxx_nonneg (l : List Vec2) : 0 ≤ Sxx l :=
  sum_map_nonneg l _ fun v _ => mul_self_nonneg v.x

theorem syy_nonneg (l : List Vec2) : 0 ≤ Syy l :=
  sum_map_nonneg l _ fun v _ => mul_self_nonneg v.y

/-- Procrustes recovery: on noise-free data generated by a proper similarity
with non-collinear pixel points, `_fit_similarity_2d` returns exactly the
generating `(s, R, t)`, for every valid SVD of the cross covariance. -/
theorem fit_similarity_recovers (P : List Vec2) (s0 : ℚ) (R0 : Mat2) (t0 : Vec2)
    (svd : SVD2) (hlen : 3 ≤ P.length) (hR : R0.isOrtho) (hdet : R0.det = 1)
    (hs : 0 < s0) (hnc : NonCollinear P)
    (hsvd : svdSpec (covMat P (P.map (genSim s0 R0 t0))) svd) :
    _fit_similarity_2d P (P.map (genSim s0 R0 t0)) svd = .ok ⟨s0, R0, t0⟩ := by
  obtain ⟨hU, hVt, hs12, hs2, hC⟩ := hsvd
  have hl : 0 < P.length := by omega
  have hn0 : (P.length : ℚ) ≠ 0 := by
    exact_mod_cast Nat.pos_iff_ne_zero.mp hl
  have hnpos : (0 : ℚ) < P.length := by exact_mod_cast hl
  obtain ⟨u, w, hu, hw, hcr⟩ := noncollinear_exists_pair hnc
  have hD : 0 < Sxx (centered P) * Syy (centered P) - Sxy (centered P) * Sxy (centered P) :=
    gram_pos hu hw hcr
  have hcov := covMat_gen P hl s0 R0 t0
  set MX : Mat2 := ⟨Sxx (centered P), Sxy (centered P), Sxy (centered P), Syy (centered P)⟩
    with hMX
  set B : Mat2 := Mat2.smul (s0 / (P.length : ℚ)) MX with hB
  have hCB : covMat P (P.map (genSim s0 R0 t0)) = B * R0.transpose := by
    rw [hcov, mat2_smul_mul]
  set S : Mat2 := Mat2.diag svd.s1 svd.s2 with hS
  set A : Mat2 := svd.U * S * svd.U.transpose with hA
  have hBsym : B.transpose = B := by
    rw [hB, mat2_transpose_smul]
    rfl
  have hCt : (covMat P (P.map (genSim s0 R0 t0))).transpose
      = svd.Vt.transpose * S * svd.U.transpose := by
    rw [hC, mat2_transpose_mul, mat2_transpose_mul, mat2_diag_transpose]
    rw [mat2_mul_assoc]
  have hCCt : covMat P (P.map (genSim s0 R0 t0))
      * (covMat P (P.map (genSim s0 R0 t0))).transpose = A * A := by
    rw [hCt, hC]
    have hr : svd.Vt.transpose * S * svd.U.transpose
        = svd.Vt.transpose * (S * svd.U.transpose) := mat2_mul_assoc _ _ _
    rw [hr]
    rw [mat2_middle_cancel2 (mat2_ortho_comm hVt) (svd.U * S) (S * svd.U.transpose)]
    have hr2 : svd.U * S * svd.U.transpose * (svd.U * S * svd.U.transpose)
        = svd.U * S * svd.U.transpose * (svd.U * (S * svd.U.transpose)) := by
      rw [mat2_mul_assoc svd.U S svd.U.transpose]
    rw [hA, hr2, mat2_middle_cancel hU (svd.U * S) (S * svd.U.transpose)]
  have hBB : covMat P (P.map (genSim s0 R0 t0))
      * (covMat P (P.map (genSim s0 R0 t0))).transpose = B * B := by
    rw [hCB, mat2_transpose_mul, mat2_transpose_transpose, hBsym]
    rw [mat2_middle_cancel hR B B]
  have hsq : A * A = B * B := by rw [← hCCt, hBB]
  have hdetU2 := mat2_det_ortho_sq hU
  have hdetA : A.det = svd.s1 * svd.s2 := by
    rw [hA, mat2_det_mul, mat2_det_mul, mat2_det_transpose, hS, mat2_diag_det]
    linear_combination svd.s1 * svd.s2 * hdetU2
  have hdetB : B.det = (s0 / (P.length : ℚ)) ^ 2
      * (Sxx (centered P) * Syy (centered P) - Sxy (centered P) * Sxy (centered P)) := by
    rw [hB, mat2_det_smul]
    rfl
  have hdetBpos : 0 < B.det := by
    rw [hdetB]
    have : 0 < (s0 / (P.length : ℚ)) ^ 2 := by positivity
    nlinarith
  have hpd : 0 < (A * A).det := by
    rw [hsq, mat2_det_mul]
    nlinarith [hdetBpos]
  have hAsym : A.transpose = A := by
    rw [hA, mat2_transpose_mul, mat2_transpose_mul, mat2_diag_transpose,
      mat2_transpose_transpose]
    rw [mat2_mul_assoc]
  have htrA : A.trace = svd.s1 + svd.s2 := by
    rw [hA, mat2_trace_mul_comm (svd.U * S) svd.U.transpose]
    rw [← mat2_mul_assoc, hU, mat2_one_mul, hS, mat2_diag_trace]
  have hAB : A = B := by
    apply mat2_psd_sqrt_unique
    · have := (mat2_eq_iff.mp hAsym).2.1
      exact this.symm
    · rfl
    · rw [htrA]; linarith
    · show 0 ≤ s0 / (P.length : ℚ) * Sxx (centered P)
        + s0 / (P.length : ℚ) * Syy (centered P)
      have h1 := sxx_nonneg (centered P)
      have h2 := syy_nonneg (centered P)
      have hc : 0 ≤ s0 / (P.length : ℚ) := by positivity
      nlinarith
    · rw [hdetA]; nlinarith [hs12, hs2]
    · exact le_of_lt hdetBpos
    · exact hsq
    · exact hpd
  have hUVt : svd.U * svd.Vt = R0.transpose := by
    apply mat2_left_cancel (M := A) (ne_of_gt (hAB ▸ hdetBpos))
    have h1 : A * (svd.U * svd.Vt) = covMat P (P.map (genSim s0 R0 t0)) := by
      rw [hA, mat2_middle_cancel hU (svd.U * S) svd.Vt, hC]
    have h2 : A * R0.transpose = covMat P (P.map (genSim s0 R0 t0)) := by
      rw [hAB, ← hCB]
    rw [h1, h2]
  have hRv : svd.Vt.transpose * svd.U.transpose = R0 := by
    have := congrArg Mat2.transpose hUVt
    rw [mat2_transpose_mul, mat2_transpose_transpose] at this
    exact this
  have hvar : varOf P = (Sxx (centered P) + Syy (centered P)) / (P.length : ℚ) :=
    varOf_eq P
  have hSpos : 0 < Sxx (centered P) + Syy (centered P) := by
    have h1 := sxx_nonneg (centered P)
    have h2 := syy_nonneg (centered P)
    nlinarith
  have hvarpos : 0 < varOf P := by
    rw [hvar]
    positivity
  have htr : svd.s1 + svd.s2
      = s0 / (P.length : ℚ) * (Sxx (centered P) + Syy (centered P)) := by
    have h1 : A.trace = B.trace := by rw [hAB]
    rw [htrA] at h1
    rw [h1, hB]
    show _ = _
    simp only [Mat2.smul, Mat2.trace, hMX]
    ring
  have hseq : (svd.s1 + svd.s2) / varOf P = s0 := by
    rw [htr, hvar]
    field_simp
  unfold _fit_similarity_2d
  rw [if_neg]
  · dsimp only
    rw [hRv, hdet]
    rw [if_neg (by norm_num : ¬ (1 : ℚ) < 0)]
    rw [if_neg (not_le.mpr hvarpos)]
    rw [Except.ok.injEq, Sim2.mk.injEq]
    refine ⟨hseq, rfl, ?_⟩
    rw [centroid_map_gen P hl, hseq]
    rw [vec2_eq_iff]
    simp only [genSim, Vec2.sub, Vec2.smul, Mat2.mulVec]
    constructor <;> ring
  · push_neg
    constructor
    · rw [List.length_map]
    · omega

theorem apply_sim_gen (s0 : ℚ) (R0 : Mat2) (t0 : Vec2) (p : Vec2) :
    _apply_similarity_2d ⟨s0, R0, t0⟩ p = genSim s0 R0 t0 p := rfl

theorem err2_nonneg (uv : List Vec2) (z : List ℚ) (co : Plane3) : 0 ≤ err2 uv z co :=
  sum_map_nonneg _ _ fun pz _ => sq_nonneg _

/-- Plane recovery: on noise-free data over non-collinear pixel points the
least-squares minimiser is unique and equals the generating plane. -/
theorem fit_plane_recovers (P : List Vec2) (g ls : Plane3) (hnc : NonCollinear P)
    (hspec : lstsqSpec P (P.map (_apply_plane_z g)) ls) : ls = g := by
  have hzip : P.zip (P.map (_apply_plane_z g))
      = P.map fun p => (p, _apply_plane_z g p) := by
    have := List.zip_map' (id : Vec2 → Vec2) (_apply_plane_z g) P
    simpa using this
  have hg0 : err2 P (P.map (_apply_plane_z g)) g = 0 := by
    unfold err2
    rw [hzip, List.map_map]
    have hf : ((fun pz : Vec2 × ℚ => (_apply_plane_z g pz.1 - pz.2) ^ 2)
        ∘ fun p : Vec2 => (p, _apply_plane_z g p)) = fun _ : Vec2 => (0 : ℚ) := by
      funext p
      simp
    rw [hf, sum_map_const]
    ring
  have hls0 : err2 P (P.map (_apply_plane_z g)) ls = 0 := by
    have h1 := hspec.1 g
    rw [hg0] at h1
    exact le_antisymm h1 (err2_nonneg _ _ _)
  have hpt : ∀ p ∈ P, _apply_plane_z ls p = _apply_plane_z g p := by
    intro p hp
    have hz := sum_map_eq_zero (P.zip (P.map (_apply_plane_z g)))
      (fun pz => (_apply_plane_z ls pz.1 - pz.2) ^ 2)
      (fun pz _ => sq_nonneg _) hls0 (p, _apply_plane_z g p)
      (by rw [hzip]; exact List.mem_map_of_mem _ hp)
    have := sq_eq_zero_iff.mp hz
    linarith [this]
  obtain ⟨p, q, r, hp, hq, hr, hcr⟩ := hnc
  have e1 := hpt p hp
  have e2 := hpt q hq
  have e3 := hpt r hr
  unfold _apply_plane_z at e1 e2 e3
  unfold Vec2.cross Vec2.sub at hcr
  simp only at hcr
  have ha : ls.a = g.a := by
    apply mul_left_cancel₀ hcr
    linear_combination (r.y - p.y) * e2 - (r.y - p.y) * e1 - (q.y - p.y) * e3
      + (q.y - p.y) * e1
  have hb : ls.b = g.b := by
    apply mul_left_cancel₀ hcr
    linear_combination (q.x - p.x) * e3 - (q.x - p.x) * e1 - (r.x - p.x) * e2
      + (r.x - p.x) * e1
  have hc : ls.c = g.c := by
    linear_combination e1 - p.x * ha - p.y * hb
  cases ls; cases g
  simp only [Plane3.mk.injEq]
  exact ⟨ha, hb, hc⟩

/-- Combined recovery for one candidate of `populate_tables`: on noise-free
non-collinear data `_fit_for` returns the generating similarity and plane
and a zero mean-squared residual. -/
theorem fit_for_recovers (P : List Vec2) (s0 : ℚ) (R0 : Mat2) (t0 : Vec2)
    (g : Plane3) (svd : SVD2) (ls : Plane3) (sqrtO : ℚ → ℚ)
    (hlen : 3 ≤ P.length) (hR : R0.isOrtho) (hdet : R0.det = 1) (hs : 0 < s0)
    (hnc : NonCollinear P)
    (hsvd : svdSpec (covMat P (P.map (genSim s0 R0 t0))) svd)
    (hls : lstsqSpec P (P.map (_apply_plane_z g)) ls) :
    _fit_for P (P.map (genSim s0 R0 t0)) (P.map (_apply_plane_z g)) svd ls sqrtO
      = .ok (⟨s0, R0, t0⟩, g, sqrtO 0) := by
  have hsim := fit_similarity_recovers P s0 R0 t0 svd hlen hR hdet hs hnc hsvd
  have hplane : _fit_plane_z P (P.map (_apply_plane_z g)) ls = .ok g := by
    unfold _fit_plane_z
    rw [if_neg, fit_plane_recovers P g ls hnc hls]
    push_neg
    constructor
    · rw [List.length_map]
    · omega
  have hz1 : (P.map (genSim s0 R0 t0)).zip (P.map (_apply_plane_z g))
      = P.map fun p => (genSim s0 R0 t0 p, _apply_plane_z g p) :=
    List.zip_map' _ _ P
  have hz2 : P.zip (P.map fun p => (genSim s0 R0 t0 p, _apply_plane_z g p))
      = P.map fun p => (p, genSim s0 R0 t0 p, _apply_plane_z g p) := by
    have := List.zip_map' (id : Vec2 → Vec2)
      (fun p => (genSim s0 R0 t0 p, _apply_plane_z g p)) P
    simpa using this
  have hmap : ((fun pt : Vec2 × Vec2 × ℚ =>
      (pt.2.1.x - (_apply_similarity_2d ⟨s0, R0, t0⟩ pt.1).x) ^ 2
        + (pt.2.1.y - (_apply_similarity_2d ⟨s0, R0, t0⟩ pt.1).y) ^ 2
        + (pt.2.2 - _apply_plane_z g pt.1) ^ 2)
      ∘ fun p : Vec2 => (p, genSim s0 R0 t0 p, _apply_plane_z g p))
      = fun _ : Vec2 => (0 : ℚ) := by
    funext p
    show ((genSim s0 R0 t0 p).x - (_apply_similarity_2d ⟨s0, R0, t0⟩ p).x) ^ 2
        + ((genSim s0 R0 t0 p).y - (_apply_similarity_2d ⟨s0, R0, t0⟩ p).y) ^ 2
        + (_apply_plane_z g p - _apply_plane_z g p) ^ 2 = 0
    rw [apply_sim_gen]
    ring
  have hmsq : ((P.zip ((P.map (genSim s0 R0 t0)).zip (P.map (_apply_plane_z g)))).map
      (fun pt : Vec2 × Vec2 × ℚ =>
        (pt.2.1.x - (_apply_similarity_2d ⟨s0, R0, t0⟩ pt.1).x) ^ 2
          + (pt.2.1.y - (_apply_similarity_2d ⟨s0, R0, t0⟩ pt.1).y) ^ 2
          + (pt.2.2 - _apply_plane_z g pt.1) ^ 2)).sum / (P.length : ℚ) = 0 := by
    rw [hz1, hz2, List.map_map, hmap, sum_map_const]
    simp
  unfold _fit_for
  rw [hsim, hplane]
  show Except.ok _ = _
  rw [Except.ok.injEq]
  simp only [Prod.mk.injEq]
  rw [hmsq]
  exact ⟨True.intro, True.intro, rfl⟩

theorem lstsq_spec_of_zero (uv : List Vec2) (z : List ℚ)
    (h : err2 uv z ⟨0, 0, 0⟩ = 0) : lstsqSpec uv z ⟨0, 0, 0⟩ := by
  constructor
  · intro c2
    rw [h]
    exact err2_nonneg uv z c2
  · intro c2 _
    show (0:ℚ) ^ 2 + (0:ℚ) ^ 2 + (0:ℚ) ^ 2 ≤ c2.a ^ 2 + c2.b ^ 2 + c2.c ^ 2
    nlinarith [sq_nonneg c2.a, sq_nonneg c2.b, sq_nonneg c2.c]

/-- C1 is false as stated: for the collinear reference pixels
`(0,0), (1,0), (2,0)` whose stage data is generated exactly by the identity
similarity (`s=1, R=I, t=0`) together with the plane `Z = v`
(`(a,b,c) = (0,1,0)`), the least-squares step admits the valid
(minimum-norm) output `(0,0,0)`, so the fit returns plane coefficients that
differ from the generators by 1 (far beyond any 1e-9 tolerance), even though
the similarity part and all residuals are exact. -/
theorem C1_counterexample :
    ([⟨0,0⟩, ⟨1,0⟩, ⟨2,0⟩] : List Vec2).map (genSim 1 Mat2.id ⟨0,0⟩)
        = [⟨0,0⟩, ⟨1,0⟩, ⟨2,0⟩] ∧
    ([⟨0,0⟩, ⟨1,0⟩, ⟨2,0⟩] : List Vec2).map (_apply_plane_z ⟨0,1,0⟩) = [0,0,0] ∧
    svdSpec (covMat [⟨0,0⟩, ⟨1,0⟩, ⟨2,0⟩] [⟨0,0⟩, ⟨1,0⟩, ⟨2,0⟩])
      ⟨Mat2.id, 2/3, 0, Mat2.id⟩ ∧
    lstsqSpec [⟨0,0⟩, ⟨1,0⟩, ⟨2,0⟩] [0,0,0] ⟨0,0,0⟩ ∧
    _fit_similarity_2d [⟨0,0⟩, ⟨1,0⟩, ⟨2,0⟩] [⟨0,0⟩, ⟨1,0⟩, ⟨2,0⟩]
      ⟨Mat2.id, 2/3, 0, Mat2.id⟩ = .ok ⟨1, Mat2.id, ⟨0,0⟩⟩ ∧
    _fit_plane_z [⟨0,0⟩, ⟨1,0⟩, ⟨2,0⟩] [0,0,0] ⟨0,0,0⟩ = .ok ⟨0,0,0⟩ ∧
    (⟨0,0,0⟩ : Plane3) ≠ ⟨0,1,0⟩ := by
  refine ⟨?_, ?_, ?_, ?_, ?_, ?_, ?_⟩
  · norm_num [genSim, Mat2.id, vec2_eq_iff]
  · norm_num [_apply_plane_z]
  · refine ⟨?_, ?_, by norm_num, le_refl 0, ?_⟩
    · show Mat2.id.transpose * Mat2.id = Mat2.id
      norm_num [Mat2.transpose, Mat2.id, mat2_mul_def, Mat2.mul, mat2_eq_iff]
    · show Mat2.id.transpose * Mat2.id = Mat2.id
      norm_num [Mat2.transpose, Mat2.id, mat2_mul_def, Mat2.mul, mat2_eq_iff]
    · norm_num [covMat, centered, centroidOf, Vec2.sub, Mat2.diag, Mat2.id,
        mat2_mul_def, Mat2.mul, mat2_eq_iff]
  · apply lstsq_spec_of_zero
    norm_num [err2, _apply_plane_z]
  · norm_num [_fit_similarity_2d, varOf, centered, centroidOf, Vec2.sub, Vec2.smul,
      Mat2.mulVec, Mat2.transpose, Mat2.id, mat2_mul_def, Mat2.mul, Mat2.det,
      flipLastRow, Sim2.mk.injEq, vec2_eq_iff, mat2_eq_iff]
  · norm_num [_fit_plane_z]
  · intro h
    rw [Plane3.mk.injEq] at h
    norm_num at h

/-- C1 (amended: the reference pixel points must additionally be
non-collinear — the counterexample shows the plane coefficients are not
recoverable from collinear references): for every set of at least 3
reference pairs with non-collinear pixel points whose stage coordinates are
generated exactly by a similarity transform (scale `s0 > 0`, proper rotation
`R0`, translation `t0`) for X/Y plus a plane `Z = a·u + b·v + c`, the
calibration fit recovers `s, R, t` and `a, b, c` exactly (hence within any
tolerance), and every per-reference residual (observed minus predicted) is
exactly 0. -/
theorem C1_calibration_exactness
    (P : List Vec2) (s0 : ℚ) (R0 : Mat2) (t0 : Vec2) (g : Plane3)
    (svd : SVD2) (ls : Plane3) (sqrtO : ℚ → ℚ)
    (hlen : 3 ≤ P.length) (hR : R0.isOrtho) (hdet : R0.det = 1) (hs : 0 < s0)
    (hnc : NonCollinear P)
    (hsvd : svdSpec (covMat P (P.map (genSim s0 R0 t0))) svd)
    (hls : lstsqSpec P (P.map (_apply_plane_z g)) ls) :
    _fit_similarity_2d P (P.map (genSim s0 R0 t0)) svd = .ok ⟨s0, R0, t0⟩ ∧
    _fit_plane_z P (P.map (_apply_plane_z g)) ls = .ok g ∧
    _fit_for P (P.map (genSim s0 R0 t0)) (P.map (_apply_plane_z g)) svd ls sqrtO
      = .ok (⟨s0, R0, t0⟩, g, sqrtO 0) ∧
    residRaw P (P.map fun p => ((genSim s0 R0 t0 p).x, (genSim s0 R0 t0 p).y,
        _apply_plane_z g p)) ⟨⟨s0, R0, t0⟩, g, false⟩
      = P.map fun _ => (0, 0, 0) := by
  refine ⟨fit_similarity_recovers P s0 R0 t0 svd hlen hR hdet hs hnc hsvd, ?_, ?_, ?_⟩
  · unfold _fit_plane_z
    rw [if_neg, fit_plane_recovers P g ls hnc hls]
    push_neg
    constructor
    · rw [List.length_map]
    · omega
  · exact fit_for_recovers P s0 R0 t0 g svd ls sqrtO hlen hR hdet hs hnc hsvd hls
  · unfold residRaw
    have hz : P.zip (P.map fun p => ((genSim s0 R0 t0 p).x, (genSim s0 R0 t0 p).y,
        _apply_plane_z g p)) = P.map fun p => (p, (genSim s0 R0 t0 p).x,
        (genSim s0 R0 t0 p).y, _apply_plane_z g p) := by
      have := List.zip_map' (id : Vec2 → Vec2)
        (fun p => ((genSim s0 R0 t0 p).x, (genSim s0 R0 t0 p).y, _apply_plane_z g p)) P
      simpa using this
    rw [hz, List.map_map]
    apply List.map_congr_left
    intro p _
    show (_, _, _) = ((0 : ℚ), (0 : ℚ), (0 : ℚ))
    simp only [Bool.false_eq_true, if_false, Prod.mk.injEq]
    rw [apply_sim_gen]
    refine ⟨by ring, by ring, by ring⟩

/-- Witness for C1 (amended): the non-collinear references
`(0,0), (2,0), (1,1)` generated by the identity similarity and the zero
plane; the fit recovers the generators exactly. -/
theorem C1_calibration_exactness_witness :
    _fit_similarity_2d [⟨0,0⟩, ⟨2,0⟩, ⟨1,1⟩]
        (([⟨0,0⟩, ⟨2,0⟩, ⟨1,1⟩] : List Vec2).map (genSim 1 Mat2.id ⟨0,0⟩))
        ⟨Mat2.id, 2/3, 2/9, Mat2.id⟩ = .ok ⟨1, Mat2.id, ⟨0,0⟩⟩ ∧
    _fit_for [⟨0,0⟩, ⟨2,0⟩, ⟨1,1⟩]
        (([⟨0,0⟩, ⟨2,0⟩, ⟨1,1⟩] : List Vec2).map (genSim 1 Mat2.id ⟨0,0⟩))
        (([⟨0,0⟩, ⟨2,0⟩, ⟨1,1⟩] : List Vec2).map (_apply_plane_z ⟨0,0,0⟩))
        ⟨Mat2.id, 2/3, 2/9, Mat2.id⟩ ⟨0,0,0⟩ (fun q => q)
      = .ok (⟨1, Mat2.id, ⟨0,0⟩⟩, ⟨0,0,0⟩, 0) := by
  have h := C1_calibration_exactness [⟨0,0⟩, ⟨2,0⟩, ⟨1,1⟩] 1 Mat2.id ⟨0,0⟩
    ⟨0,0,0⟩ ⟨Mat2.id, 2/3, 2/9, Mat2.id⟩ ⟨0,0,0⟩ (fun q => q)
    (by norm_num)
    (by show Mat2.id.transpose * Mat2.id = Mat2.id
        norm_num [Mat2.transpose, Mat2.id, mat2_mul_def, Mat2.mul, mat2_eq_iff])
    (by norm_num [Mat2.det, Mat2.id])
    (by norm_num)
    ⟨⟨0,0⟩, ⟨2,0⟩, ⟨1,1⟩, by simp, by simp, by simp,
      by norm_num [Vec2.cross, Vec2.sub]⟩
    (by refine ⟨?_, ?_, by norm_num, by norm_num, ?_⟩
        · show Mat2.id.transpose * Mat2.id = Mat2.id
          norm_num [Mat2.transpose, Mat2.id, mat2_mul_def, Mat2.mul, mat2_eq_iff]
        · show Mat2.id.transpose * Mat2.id = Mat2.id
          norm_num [Mat2.transpose, Mat2.id, mat2_mul_def, Mat2.mul, mat2_eq_iff]
        · norm_num [covMat, centered, centroidOf, Vec2.sub, Mat2.diag, Mat2.id,
            genSim, mat2_mul_def, Mat2.mul, mat2_eq_iff, vec2_eq_iff])
    (by apply lstsq_spec_of_zero
        norm_num [err2, _apply_plane_z])
  exact ⟨h.1, h.2.2.1⟩

theorem centered_mirror (l : List Vec2) :
    centered (mirrorU l) = (centered l).map fun v => Vec2.mk (-v.x) v.y := by
  unfold centered mirrorU
  have hcx : centroidOf (l.map fun p => Vec2.mk (-p.x) p.y)
      = Vec2.mk (-(centroidOf l).x) (centroidOf l).y := by
    rw [vec2_eq_iff]
    constructor
    · show ((l.map fun p => Vec2.mk (-p.x) p.y).map Vec2.x).sum
          / ((l.map fun p => Vec2.mk (-p.x) p.y).length) = _
      rw [List.length_map, List.map_map]
      have hf : (Vec2.x ∘ fun p : Vec2 => Vec2.mk (-p.x) p.y)
          = fun p : Vec2 => (-1 : ℚ) * p.x + (0 : ℚ) * p.y + 0 := by
        funext p
        simp
      rw [hf, sum_map_affine]
      show _ = -((l.map Vec2.x).sum / (l.length : ℚ))
      ring
    · show ((l.map fun p => Vec2.mk (-p.x) p.y).map Vec2.y).sum
          / ((l.map fun p => Vec2.mk (-p.x) p.y).length) = _
      rw [List.length_map, List.map_map]
      have hf : (Vec2.y ∘ fun p : Vec2 => Vec2.mk (-p.x) p.y)
          = fun p : Vec2 => (0 : ℚ) * p.x + (1 : ℚ) * p.y + 0 := by
        funext p
        simp
      rw [hf, sum_map_affine]
      show _ = (l.map Vec2.y).sum / (l.length : ℚ)
      ring
  rw [hcx, List.map_map, List.map_map]
  apply List.map_congr_left
  intro p _
  simp [Vec2.sub, vec2_eq_iff]
  ring

theorem varOf_mirror (l : List Vec2) : varOf (mirrorU l) = varOf l := by
  unfold varOf
  rw [centered_mirror, List.map_map]
  have hlen : (mirrorU l).length = l.length := by simp [mirrorU]
  rw [hlen]
  have hmapeq : ((centered l).map ((fun v : Vec2 => v.x * v.x + v.y * v.y)
      ∘ fun v : Vec2 => Vec2.mk (-v.x) v.y))
      = (centered l).map fun v : Vec2 => v.x * v.x + v.y * v.y := by
    apply List.map_congr_left
    intro v _
    simp
  rw [hmapeq]

theorem fit_sim_degenerate (P Q : List Vec2) (svd : SVD2) (h : varOf P = 0) :
    ∃ e, _fit_similarity_2d P Q svd = .error e := by
  unfold _fit_similarity_2d
  by_cases hc : P.length ≠ Q.length ∨ P.length < 2
  · rw [if_pos hc]
    exact ⟨_, rfl⟩
  · rw [if_neg hc]
    dsimp only
    rw [if_pos (le_of_eq h)]
    exact ⟨_, rfl⟩

theorem fit_for_degenerate (P Txy : List Vec2) (Tz : List ℚ) (svd : SVD2)
    (ls : Plane3) (sqrtO : ℚ → ℚ) (h : varOf P = 0) :
    ∃ e, _fit_for P Txy Tz svd ls sqrtO = .error e := by
  obtain ⟨e, he⟩ := fit_sim_degenerate P Txy svd h
  refine ⟨e, ?_⟩
  unfold _fit_for
  rw [he]
  rfl

theorem solveModel_none (refUV : List Vec2) (refXYZ : List (ℚ × ℚ × ℚ))
    (mode : FlipMode) (O : FitOracles)
    (h : refUV.length < 3 ∨ varOf refUV = 0) :
    solveModel refUV refXYZ mode O = none := by
  by_cases hl : refUV.length < 3
  · unfold solveModel
    rw [if_pos hl]
  · have hv : varOf refUV = 0 := by tauto
    have hvm : varOf (mirrorU refUV) = 0 := by rw [varOf_mirror]; exact hv
    unfold solveModel
    rw [if_neg hl]
    dsimp only
    cases mode with
    | flip =>
        obtain ⟨e, he⟩ := fit_for_degenerate (mirrorU refUV)
          (refXYZ.map fun t => Vec2.mk t.1 t.2.1) (refXYZ.map fun t => t.2.2)
          O.svd1 O.ls1 O.sqrtO hvm
        rw [he]
    | normal =>
        obtain ⟨e, he⟩ := fit_for_degenerate refUV
          (refXYZ.map fun t => Vec2.mk t.1 t.2.1) (refXYZ.map fun t => t.2.2)
          O.svd0 O.ls0 O.sqrtO hv
        rw [he]
    | auto =>
        obtain ⟨e, he⟩ := fit_for_degenerate refUV
          (refXYZ.map fun t => Vec2.mk t.1 t.2.1) (refXYZ.map fun t => t.2.2)
          O.svd0 O.ls0 O.sqrtO hv
        rw [he]

/-- C2: for every reference-slot configuration with fewer than 3 valid slots
(a slot is valid only if its pixel position is set and all three stage
values parse), and for every configuration whose valid pixel points have
zero source variance, no calibration model is produced and every `Calc.*`
centroid cell and every residual cell stays blank (`none`, never a number
and never a partial model); the embedded run is total, so no exception
escapes. -/
theorem C2_no_partial_calibration
    (refPts : List (Option Vec2)) (refObs : List Obs3)
    (centroids : List (ℕ × ℚ × ℚ)) (mode : FlipMode) (O : FitOracles)
    (h : (collectRefs refPts refObs 10).uv.length < 3
      ∨ varOf (collectRefs refPts refObs 10).uv = 0) :
    (runCalib refPts refObs centroids mode O).model = none ∧
    (∀ c ∈ (runCalib refPts refObs centroids mode O).calcv, c = none) ∧
    ∀ r ∈ (runCalib refPts refObs centroids mode O).resid, r = none := by
  have hm := solveModel_none (collectRefs refPts refObs 10).uv
    (collectRefs refPts refObs 10).xyz mode O h
  unfold runCalib
  dsimp only
  rw [hm]
  refine ⟨rfl, ?_, ?_⟩
  · intro c hc
    rcases List.mem_map.mp hc with ⟨_, _, hcc⟩
    exact hcc.symm
  · intro r hr
    rcases List.mem_map.mp hr with ⟨_, _, hrr⟩
    exact hrr.symm

/-- Witness for C2: with no reference slots at all there are 0 valid
references, and the run yields no model and only blank cells. -/
theorem C2_no_partial_calibration_witness :
    (runCalib [] [] [(1, 5, 7)] .auto
        ⟨⟨Mat2.id, 0, 0, Mat2.id⟩, ⟨Mat2.id, 0, 0, Mat2.id⟩,
         ⟨0, 0, 0⟩, ⟨0, 0, 0⟩, fun q => q⟩).model = none ∧
    (∀ c ∈ (runCalib [] [] [(1, 5, 7)] .auto
        ⟨⟨Mat2.id, 0, 0, Mat2.id⟩, ⟨Mat2.id, 0, 0, Mat2.id⟩,
         ⟨0, 0, 0⟩, ⟨0, 0, 0⟩, fun q => q⟩).calcv, c = none) ∧
    ∀ r ∈ (runCalib [] [] [(1, 5, 7)] .auto
        ⟨⟨Mat2.id, 0, 0, Mat2.id⟩, ⟨Mat2.id, 0, 0, Mat2.id⟩,
         ⟨0, 0, 0⟩, ⟨0, 0, 0⟩, fun q => q⟩).resid, r = none :=
  C2_no_partial_calibration [] [] [(1, 5, 7)] .auto
    ⟨⟨Mat2.id, 0, 0, Mat2.id⟩, ⟨Mat2.id, 0, 0, Mat2.id⟩,
     ⟨0, 0, 0⟩, ⟨0, 0, 0⟩, fun q => q⟩
    (Or.inl (by simp [collectRefs]))

theorem mirror_mirror (l : List Vec2) : mirrorU (mirrorU l) = l := by
  unfold mirrorU
  rw [List.map_map]
  have hf : ((fun p : Vec2 => Vec2.mk (-p.x) p.y) ∘ fun p : Vec2 => Vec2.mk (-p.x) p.y)
      = fun p : Vec2 => p := by
    funext p
    simp
  rw [hf]
  exact List.map_id l

theorem mat2_ortho_mul {A B : Mat2} (hA : A.isOrtho) (hB : B.isOrtho) :
    (A * B).isOrtho := by
  unfold Mat2.isOrtho
  rw [mat2_transpose_mul]
  have h1 : B.transpose * A.transpose * (A * B) = B.transpose * B :=
    mat2_middle_cancel hA B.transpose B
  rw [h1, hB]

theorem mat2_ortho_transpose {A : Mat2} (hA : A.isOrtho) : A.transpose.isOrtho := by
  unfold Mat2.isOrtho
  rw [mat2_transpose_transpose]
  exact mat2_ortho_comm hA

theorem flip_ortho {M : Mat2} (h : M.isOrtho) : (flipLastRow M).isOrtho := by
  simp only [Mat2.isOrtho, flipLastRow, Mat2.transpose, mat2_mul_def, Mat2.mul,
    Mat2.id, mat2_eq_iff] at h ⊢
  obtain ⟨h1, h2, h3, h4⟩ := h
  refine ⟨by linear_combination h1, by linear_combination h2,
    by linear_combination h3, by linear_combination h4⟩

theorem flip_det (M : Mat2) : (flipLastRow M).det = -M.det := by
  simp only [flipLastRow, Mat2.det]
  ring

theorem fit_sim_ok_ex (P Q : List Vec2) (svd : SVD2) (hlen : P.length = Q.length)
    (h2 : 2 ≤ P.length) (hv : 0 < varOf P) :
    _fit_similarity_2d P Q svd
      = .ok ⟨(svd.s1 + svd.s2) / varOf P,
          if (svd.Vt.transpose * svd.U.transpose).det < 0 then
            (flipLastRow svd.Vt).transpose * svd.U.transpose
          else svd.Vt.transpose * svd.U.transpose,
          (centroidOf Q).sub (Vec2.smul ((svd.s1 + svd.s2) / varOf P)
            ((if (svd.Vt.transpose * svd.U.transpose).det < 0 then
                (flipLastRow svd.Vt).transpose * svd.U.transpose
              else svd.Vt.transpose * svd.U.transpose).mulVec (centroidOf P)))⟩ := by
  unfold _fit_similarity_2d
  rw [if_neg (by push_neg; exact ⟨hlen, by omega⟩), if_neg (not_le.mpr hv)]

theorem fit_sim_R_props {P Q : List Vec2} {svd : SVD2} {sim : Sim2}
    (hU : svd.U.isOrtho) (hVt : svd.Vt.isOrtho)
    (hok : _fit_similarity_2d P Q svd = .ok sim) :
    sim.R.isOrtho ∧ sim.R.det = 1 := by
  have hdUV : ((svd.Vt.transpose * svd.U.transpose).det)
      * ((svd.Vt.transpose * svd.U.transpose).det) = 1 := by
    rw [mat2_det_mul, mat2_det_transpose, mat2_det_transpose]
    have h1 := mat2_det_ortho_sq hU
    have h2 := mat2_det_ortho_sq hVt
    nlinarith
  unfold _fit_similarity_2d at hok
  by_cases hc : P.length ≠ Q.length ∨ P.length < 2
  · rw [if_pos hc] at hok
    simp at hok
  · rw [if_neg hc] at hok
    dsimp only at hok
    by_cases hv : varOf P ≤ 0
    · rw [if_pos hv] at hok
      simp at hok
    · rw [if_neg hv] at hok
      rw [Except.ok.injEq] at hok
      have hRfield : sim.R = if (svd.Vt.transpose * svd.U.transpose).det < 0 then
          (flipLastRow svd.Vt).transpose * svd.U.transpose
        else svd.Vt.transpose * svd.U.transpose := by
        rw [← hok]
      by_cases hd : (svd.Vt.transpose * svd.U.transpose).det < 0
      · rw [if_pos hd] at hRfield
        constructor
        · rw [hRfield]
          exact mat2_ortho_mul (mat2_ortho_transpose (flip_ortho hVt))
            (mat2_ortho_transpose hU)
        · rw [hRfield]
          rw [mat2_det_mul, mat2_det_transpose, mat2_det_transpose, flip_det]
          rw [mat2_det_mul, mat2_det_transpose, mat2_det_transpose] at hdUV hd
          nlinarith
      · rw [if_neg hd] at hRfield
        push_neg at hd
        constructor
        · rw [hRfield]
          exact mat2_ortho_mul (mat2_ortho_transpose hVt) (mat2_ortho_transpose hU)
        · rw [hRfield]
          nlinarith [hdUV, hd]

theorem fit_for_ok (P Txy : List Vec2) (Tz : List ℚ) (svd : SVD2) (ls : Plane3)
    (sq : ℚ → ℚ) (sim : Sim2) (hok : _fit_similarity_2d P Txy svd = .ok sim)
    (hlen : P.length = Tz.length) (h3 : 3 ≤ P.length) :
    _fit_for P Txy Tz svd ls sq = .ok (sim, ls, sq (msqOf P Txy Tz sim ls)) := by
  unfold _fit_for _fit_plane_z msqOf
  rw [hok, if_neg (by push_neg; exact ⟨hlen, by omega⟩)]
  rfl

theorem msqOf_nonneg (P Txy : List Vec2) (Tz : List ℚ) (sim : Sim2) (co : Plane3) :
    0 ≤ msqOf P Txy Tz sim co := by
  unfold msqOf
  apply div_nonneg
  · apply sum_map_nonneg
    intro pt _
    dsimp only
    positivity
  · exact Nat.cast_nonneg _

theorem varOf_pos (P : List Vec2) (hl : 0 < P.length) (hnc : NonCollinear P) :
    0 < varOf P := by
  obtain ⟨u, w, hu, hw, hcr⟩ := noncollinear_exists_pair hnc
  have hD := gram_pos hu hw hcr
  rw [varOf_eq]
  have h1 := sxx_nonneg (centered P)
  have h2 := syy_nonneg (centered P)
  have hS : 0 < Sxx (centered P) + Syy (centered P) := by nlinarith
  have hn : (0 : ℚ) < P.length := by exact_mod_cast hl
  positivity

theorem msqOf_zero_pointwise (P Txy : List Vec2) (Tz : List ℚ) (sim : Sim2)
    (co : Plane3) (hl : 0 < P.length) (h : msqOf P Txy Tz sim co = 0) :
    ∀ pt ∈ P.zip (Txy.zip Tz),
      (_apply_similarity_2d sim pt.1).x = pt.2.1.x ∧
      (_apply_similarity_2d sim pt.1).y = pt.2.1.y := by
  unfold msqOf at h
  have hn : ((P.length : ℚ)) ≠ 0 := by
    exact_mod_cast Nat.pos_iff_ne_zero.mp hl
  rw [div_eq_zero_iff] at h
  have hsum : ((P.zip (Txy.zip Tz)).map fun pt =>
      let pr := _apply_similarity_2d sim pt.1
      let pz := _apply_plane_z co pt.1
      (pt.2.1.x - pr.x) ^ 2 + (pt.2.1.y - pr.y) ^ 2 + (pt.2.2 - pz) ^ 2).sum = 0 := by
    tauto
  intro pt hpt
  have hterm := sum_map_eq_zero (P.zip (Txy.zip Tz)) _
    (fun pt2 _ => by dsimp only; positivity) hsum pt hpt
  dsimp only at hterm
  have h1 : (pt.2.1.x - (_apply_similarity_2d sim pt.1).x) ^ 2 = 0 := by
    nlinarith [sq_nonneg (pt.2.1.x - (_apply_similarity_2d sim pt.1).x),
      sq_nonneg (pt.2.1.y - (_apply_similarity_2d sim pt.1).y),
      sq_nonneg (pt.2.2 - _apply_plane_z co pt.1)]
  have h2 : (pt.2.1.y - (_apply_similarity_2d sim pt.1).y) ^ 2 = 0 := by
    nlinarith [sq_nonneg (pt.2.1.x - (_apply_similarity_2d sim pt.1).x),
      sq_nonneg (pt.2.1.y - (_apply_similarity_2d sim pt.1).y),
      sq_nonneg (pt.2.2 - _apply_plane_z co pt.1)]
  constructor
  · have := pow_eq_zero_iff (n := 2) (by omega) |>.mp h1
    linarith [this]
  · have := pow_eq_zero_iff (n := 2) (by omega) |>.mp h2
    linarith [this]

theorem no_exact_mirror_fit (P : List Vec2) (s0 : ℚ) (R0 : Mat2) (t0 : Vec2)
    (sim2 : Sim2) (hnc : NonCollinear P) (hs : 0 < s0) (hdet0 : R0.det = 1)
    (hdet2 : sim2.R.det = 1)
    (hex : ∀ p ∈ P,
      (_apply_similarity_2d sim2 (Vec2.mk (-p.x) p.y)).x = (genSim s0 R0 t0 p).x ∧
      (_apply_similarity_2d sim2 (Vec2.mk (-p.x) p.y)).y = (genSim s0 R0 t0 p).y) :
    False := by
  obtain ⟨p, q, r, hp, hq, hr, hcr⟩ := hnc
  obtain ⟨hpx, hpy⟩ := hex p hp
  obtain ⟨hqx, hqy⟩ := hex q hq
  obtain ⟨hrx, hry⟩ := hex r hr
  unfold _apply_similarity_2d genSim Vec2.smul Vec2.add Mat2.mulVec
    at hpx hpy hqx hqy hrx hry
  simp only at hpx hpy hqx hqy hrx hry
  unfold Vec2.cross Vec2.sub at hcr
  simp only at hcr
  have H1 : sim2.s * sim2.R.a = -(s0 * R0.a) := by
    apply mul_left_cancel₀ hcr
    linear_combination (-(r.y - p.y)) * hqx + (r.y - p.y) * hpx + (q.y - p.y) * hrx
      - (q.y - p.y) * hpx
  have H2 : sim2.s * sim2.R.b = s0 * R0.b := by
    apply mul_left_cancel₀ hcr
    linear_combination (q.x - p.x) * hrx - (q.x - p.x) * hpx - (r.x - p.x) * hqx
      + (r.x - p.x) * hpx
  have H3 : sim2.s * sim2.R.c = -(s0 * R0.c) := by
    apply mul_left_cancel₀ hcr
    linear_combination (-(r.y - p.y)) * hqy + (r.y - p.y) * hpy + (q.y - p.y) * hry
      - (q.y - p.y) * hpy
  have H4 : sim2.s * sim2.R.d = s0 * R0.d := by
    apply mul_left_cancel₀ hcr
    linear_combination (q.x - p.x) * hry - (q.x - p.x) * hpy - (r.x - p.x) * hqy
      + (r.x - p.x) * hpy
  have m1 : (sim2.s * sim2.R.a) * (sim2.s * sim2.R.d)
      = (-(s0 * R0.a)) * (s0 * R0.d) := by rw [H1, H4]
  have m2 : (sim2.s * sim2.R.b) * (sim2.s * sim2.R.c)
      = (s0 * R0.b) * (-(s0 * R0.c)) := by rw [H2, H3]
  have hfin : sim2.s ^ 2 * (sim2.R.a * sim2.R.d - sim2.R.b * sim2.R.c)
      + s0 ^ 2 * (R0.a * R0.d - R0.b * R0.c) = 0 := by
    linear_combination m1 - m2
  unfold Mat2.det at hdet0 hdet2
  rw [hdet0, hdet2] at hfin
  nlinarith [sq_nonneg sim2.s, hfin, hs]

theorem Txy_eq (P : List Vec2) (s0 : ℚ) (R0 : Mat2) (t0 : Vec2) (g : Plane3) :
    ((P.map fun p => ((genSim s0 R0 t0 p).x, (genSim s0 R0 t0 p).y,
      _apply_plane_z g p)).map fun t => Vec2.mk t.1 t.2.1)
      = P.map (genSim s0 R0 t0) := by
  rw [List.map_map]
  apply List.map_congr_left
  intro p _
  rfl

theorem Tz_eq (P : List Vec2) (s0 : ℚ) (R0 : Mat2) (t0 : Vec2) (g : Plane3) :
    ((P.map fun p => ((genSim s0 R0 t0 p).x, (genSim s0 R0 t0 p).y,
      _apply_plane_z g p)).map fun t => t.2.2)
      = P.map (_apply_plane_z g) := by
  rw [List.map_map]
  apply List.map_congr_left
  intro p _
  rfl

theorem residRaw_gen_false (P : List Vec2) (s0 : ℚ) (R0 : Mat2) (t0 : Vec2)
    (g : Plane3) :
    residRaw P (P.map fun p => ((genSim s0 R0 t0 p).x, (genSim s0 R0 t0 p).y,
        _apply_plane_z g p)) ⟨⟨s0, R0, t0⟩, g, false⟩
      = P.map fun _ => (0, 0, 0) := by
  unfold residRaw
  have hz : P.zip (P.map fun p => ((genSim s0 R0 t0 p).x, (genSim s0 R0 t0 p).y,
      _apply_plane_z g p)) = P.map fun p => (p, (genSim s0 R0 t0 p).x,
      (genSim s0 R0 t0 p).y, _apply_plane_z g p) := by
    have := List.zip_map' (id : Vec2 → Vec2)
      (fun p => ((genSim s0 R0 t0 p).x, (genSim s0 R0 t0 p).y, _apply_plane_z g p)) P
    simpa using this
  rw [hz, List.map_map]
  apply List.map_congr_left
  intro p _
  show (_, _, _) = ((0 : ℚ), (0 : ℚ), (0 : ℚ))
  simp only [Bool.false_eq_true, if_false, Prod.mk.injEq]
  rw [apply_sim_gen]
  refine ⟨by ring, by ring, by ring⟩

theorem residRaw_gen_true (P : List Vec2) (s0 : ℚ) (R0 : Mat2) (t0 : Vec2)
    (g : Plane3) :
    residRaw (mirrorU P) (P.map fun p => ((genSim s0 R0 t0 p).x,
        (genSim s0 R0 t0 p).y, _apply_plane_z g p)) ⟨⟨s0, R0, t0⟩, g, true⟩
      = P.map fun _ => (0, 0, 0) := by
  unfold residRaw mirrorU
  have hz : (P.map fun p : Vec2 => Vec2.mk (-p.x) p.y).zip
      (P.map fun p => ((genSim s0 R0 t0 p).x, (genSim s0 R0 t0 p).y,
        _apply_plane_z g p))
      = P.map fun p => (Vec2.mk (-p.x) p.y, (genSim s0 R0 t0 p).x,
        (genSim s0 R0 t0 p).y, _apply_plane_z g p) :=
    List.zip_map' _ _ P
  rw [hz, List.map_map]
  apply List.map_congr_left
  intro p _
  show (_, _, _) = ((0 : ℚ), (0 : ℚ), (0 : ℚ))
  simp only [if_true, Prod.mk.injEq]
  unfold _apply_similarity_2d genSim _apply_plane_z Vec2.smul Vec2.add Mat2.mulVec
  simp only
  refine ⟨by ring, by ring, by ring⟩

theorem solveModel_normal_forced (refUV : List Vec2) (refXYZ : List (ℚ × ℚ × ℚ))
    (O : FitOracles) (sim : Sim2) (co : Plane3) (rms : ℚ) (h3 : 3 ≤ refUV.length)
    (hfit : _fit_for refUV (refXYZ.map fun t => Vec2.mk t.1 t.2.1)
      (refXYZ.map fun t => t.2.2) O.svd0 O.ls0 O.sqrtO = .ok (sim, co, rms)) :
    solveModel refUV refXYZ .normal O = some ⟨sim, co, false⟩ := by
  unfold solveModel
  rw [if_neg (by omega)]
  dsimp only
  rw [hfit]

theorem solveModel_flip_forced (refUV : List Vec2) (refXYZ : List (ℚ × ℚ × ℚ))
    (O : FitOracles) (sim : Sim2) (co : Plane3) (rms : ℚ) (h3 : 3 ≤ refUV.length)
    (hfit : _fit_for (mirrorU refUV) (refXYZ.map fun t => Vec2.mk t.1 t.2.1)
      (refXYZ.map fun t => t.2.2) O.svd1 O.ls1 O.sqrtO = .ok (sim, co, rms)) :
    solveModel refUV refXYZ .flip O = some ⟨sim, co, true⟩ := by
  unfold solveModel
  rw [if_neg (by omega)]
  dsimp only
  rw [hfit]

theorem solveModel_auto_rule (refUV : List Vec2) (refXYZ : List (ℚ × ℚ × ℚ))
    (O : FitOracles) (sim0 sim1 : Sim2) (co0 co1 : Plane3) (rms0 rms1 : ℚ)
    (h3 : 3 ≤ refUV.length)
    (hfit0 : _fit_for refUV (refXYZ.map fun t => Vec2.mk t.1 t.2.1)
      (refXYZ.map fun t => t.2.2) O.svd0 O.ls0 O.sqrtO = .ok (sim0, co0, rms0))
    (hfit1 : _fit_for (mirrorU refUV) (refXYZ.map fun t => Vec2.mk t.1 t.2.1)
      (refXYZ.map fun t => t.2.2) O.svd1 O.ls1 O.sqrtO = .ok (sim1, co1, rms1)) :
    solveModel refUV refXYZ .auto O
      = some (if rms1 < rms0 then ⟨sim1, co1, true⟩ else ⟨sim0, co0, false⟩) := by
  unfold solveModel
  rw [if_neg (by omega)]
  dsimp only
  rw [hfit0, hfit1]
  dsimp only
  by_cases h : rms1 < rms0
  · rw [if_pos h, if_pos h]
  · rw [if_neg h, if_neg h]

theorem auto_mirror_recovery
    (P : List Vec2) (s0 : ℚ) (R0 : Mat2) (t0 : Vec2) (g : Plane3) (O O2 : FitOracles)
    (hlen : 3 ≤ P.length) (hR : R0.isOrtho) (hdet : R0.det = 1) (hs : 0 < s0)
    (hnc : NonCollinear P)
    (hmono : ∀ a b : ℚ, 0 ≤ a → 0 ≤ b → (O.sqrtO a < O.sqrtO b ↔ a < b))
    (hmono2 : ∀ a b : ℚ, 0 ≤ a → 0 ≤ b → (O2.sqrtO a < O2.sqrtO b ↔ a < b))
    (hU0 : O.svd0.U.isOrtho) (hVt0 : O.svd0.Vt.isOrtho)
    (hsvd1 : svdSpec (covMat P (P.map (genSim s0 R0 t0))) O.svd1)
    (hls1 : lstsqSpec P (P.map (_apply_plane_z g)) O.ls1)
    (hsvd02 : svdSpec (covMat P (P.map (genSim s0 R0 t0))) O2.svd0)
    (hls02 : lstsqSpec P (P.map (_apply_plane_z g)) O2.ls0) :
    solveModel (mirrorU P) (P.map fun p => ((genSim s0 R0 t0 p).x,
        (genSim s0 R0 t0 p).y, _apply_plane_z g p)) .auto O
      = some ⟨⟨s0, R0, t0⟩, g, true⟩ ∧
    solveModel P (P.map fun p => ((genSim s0 R0 t0 p).x,
        (genSim s0 R0 t0 p).y, _apply_plane_z g p)) .auto O2
      = some ⟨⟨s0, R0, t0⟩, g, false⟩ := by
  have hTxy := Txy_eq P s0 R0 t0 g
  have hTz := Tz_eq P s0 R0 t0 g
  have hl0 : 0 < P.length := by omega
  have hvar : 0 < varOf P := varOf_pos P hl0 hnc
  have hvarm : 0 < varOf (mirrorU P) := by rw [varOf_mirror]; exact hvar
  have hlenm : (mirrorU P).length = P.length := by simp [mirrorU]
  have hlengen : (P.map (genSim s0 R0 t0)).length = P.length := by simp
  have hlenpl : (P.map (_apply_plane_z g)).length = P.length := by simp
  constructor
  · -- mirrored configuration, auto mode: the flip candidate wins strictly
    have hsim0m := fit_sim_ok_ex (mirrorU P) (P.map (genSim s0 R0 t0)) O.svd0
      (by rw [hlenm, hlengen]) (by omega) hvarm
    set sim0m : Sim2 := ⟨(O.svd0.s1 + O.svd0.s2) / varOf (mirrorU P),
        if (O.svd0.Vt.transpose * O.svd0.U.transpose).det < 0 then
          (flipLastRow O.svd0.Vt).transpose * O.svd0.U.transpose
        else O.svd0.Vt.transpose * O.svd0.U.transpose,
        (centroidOf (P.map (genSim s0 R0 t0))).sub
          (Vec2.smul ((O.svd0.s1 + O.svd0.s2) / varOf (mirrorU P))
            ((if (O.svd0.Vt.transpose * O.svd0.U.transpose).det < 0 then
                (flipLastRow O.svd0.Vt).transpose * O.svd0.U.transpose
              else O.svd0.Vt.transpose * O.svd0.U.transpose).mulVec
              (centroidOf (mirrorU P))))⟩ with hsim0mdef
    have hfit0 := fit_for_ok (mirrorU P) (P.map (genSim s0 R0 t0))
      (P.map (_apply_plane_z g)) O.svd0 O.ls0 O.sqrtO sim0m hsim0m
      (by rw [hlenm, hlenpl]) (by omega)
    have hfit1 := fit_for_recovers P s0 R0 t0 g O.svd1 O.ls1 O.sqrtO
      hlen hR hdet hs hnc hsvd1 hls1
    set msq0m := msqOf (mirrorU P) (P.map (genSim s0 R0 t0))
      (P.map (_apply_plane_z g)) sim0m O.ls0 with hmsq0mdef
    have hmsqnn := msqOf_nonneg (mirrorU P) (P.map (genSim s0 R0 t0))
      (P.map (_apply_plane_z g)) sim0m O.ls0
    have hmsqpos : 0 < msq0m := by
      rcases lt_or_eq_of_le hmsqnn with h | h
      · exact h
      · exfalso
        have hpw := msqOf_zero_pointwise (mirrorU P) (P.map (genSim s0 R0 t0))
          (P.map (_apply_plane_z g)) sim0m O.ls0 (by rw [hlenm]; omega) h.symm
        have hRp := fit_sim_R_props hU0 hVt0 hsim0m
        apply no_exact_mirror_fit P s0 R0 t0 sim0m hnc hs hdet hRp.2
        intro p hp
        have hzipin : (Vec2.mk (-p.x) p.y, genSim s0 R0 t0 p, _apply_plane_z g p)
            ∈ (mirrorU P).zip ((P.map (genSim s0 R0 t0)).zip
              (P.map (_apply_plane_z g))) := by
          have hz1 : (P.map (genSim s0 R0 t0)).zip (P.map (_apply_plane_z g))
              = P.map fun p2 => (genSim s0 R0 t0 p2, _apply_plane_z g p2) :=
            List.zip_map' _ _ P
          have hz2 : (mirrorU P).zip (P.map fun p2 =>
              (genSim s0 R0 t0 p2, _apply_plane_z g p2))
              = P.map fun p2 => (Vec2.mk (-p2.x) p2.y,
                genSim s0 R0 t0 p2, _apply_plane_z g p2) := by
            unfold mirrorU
            exact List.zip_map' _ _ P
          rw [hz1, hz2]
          exact List.mem_map_of_mem _ hp
        have := hpw _ hzipin
        exact ⟨this.1, this.2⟩
    have hbranch : O.sqrtO 0 < O.sqrtO msq0m := (hmono 0 msq0m le_rfl hmsqnn).mpr hmsqpos
    have hrule := solveModel_auto_rule (mirrorU P)
      (P.map fun p => ((genSim s0 R0 t0 p).x, (genSim s0 R0 t0 p).y,
        _apply_plane_z g p)) O sim0m ⟨s0, R0, t0⟩ O.ls0 g
      (O.sqrtO msq0m) (O.sqrtO 0) (by omega)
      (by rw [hTxy, hTz]; exact hfit0)
      (by rw [hTxy, hTz, mirror_mirror]; exact hfit1)
    rw [hrule, if_pos hbranch]
  · -- unmirrored configuration, auto mode: the normal candidate wins
    have hfit0 := fit_for_recovers P s0 R0 t0 g O2.svd0 O2.ls0 O2.sqrtO
      hlen hR hdet hs hnc hsvd02 hls02
    have hsim1m := fit_sim_ok_ex (mirrorU P) (P.map (genSim s0 R0 t0)) O2.svd1
      (by rw [hlenm, hlengen]) (by omega) hvarm
    set sim1m : Sim2 := ⟨(O2.svd1.s1 + O2.svd1.s2) / varOf (mirrorU P),
        if (O2.svd1.Vt.transpose * O2.svd1.U.transpose).det < 0 then
          (flipLastRow O2.svd1.Vt).transpose * O2.svd1.U.transpose
        else O2.svd1.Vt.transpose * O2.svd1.U.transpose,
        (centroidOf (P.map (genSim s0 R0 t0))).sub
          (Vec2.smul ((O2.svd1.s1 + O2.svd1.s2) / varOf (mirrorU P))
            ((if (O2.svd1.Vt.transpose * O2.svd1.U.transpose).det < 0 then
                (flipLastRow O2.svd1.Vt).transpose * O2.svd1.U.transpose
              else O2.svd1.Vt.transpose * O2.svd1.U.transpose).mulVec
              (centroidOf (mirrorU P))))⟩ with hsim1mdef
    have hfit1 := fit_for_ok (mirrorU P) (P.map (genSim s0 R0 t0))
      (P.map (_apply_plane_z g)) O2.svd1 O2.ls1 O2.sqrtO sim1m hsim1m
      (by rw [hlenm, hlenpl]) (by omega)
    set msq1m := msqOf (mirrorU P) (P.map (genSim s0 R0 t0))
      (P.map (_apply_plane_z g)) sim1m O2.ls1 with hmsq1mdef
    have hmsqnn := msqOf_nonneg (mirrorU P) (P.map (genSim s0 R0 t0))
      (P.map (_apply_plane_z g)) sim1m O2.ls1
    have hbranch : ¬ (O2.sqrtO msq1m < O2.sqrtO 0) := by
      intro hcon
      have := (hmono2 msq1m 0 hmsqnn le_rfl).mp hcon
      linarith
    have hrule := solveModel_auto_rule P
      (P.map fun p => ((genSim s0 R0 t0 p).x, (genSim s0 R0 t0 p).y,
        _apply_plane_z g p)) O2 ⟨s0, R0, t0⟩ sim1m g O2.ls1
      (O2.sqrtO 0) (O2.sqrtO msq1m) hlen
      (by rw [hTxy, hTz]; exact hfit0)
      (by rw [hTxy, hTz]; exact hfit1)
    rw [hrule, if_neg hbranch]

/-- C4: orientation selection of the calibration solver.  `normal` and
`flip` each force that single candidate (pixel U unchanged, respectively
negated before fitting); `auto` fits both candidates and keeps the one with
the lower combined 3-D residual RMS (flip only on strictly lower RMS);
and mirroring all reference pixel U-coordinates of a noise-free
non-collinear configuration and re-fitting in `auto` mode yields
`flipped = true` with the same model and residuals (all exactly zero) as
the unmirrored `auto` fit. -/
theorem C4_orientation_selection :
    (∀ (refUV : List Vec2) (refXYZ : List (ℚ × ℚ × ℚ)) (O : FitOracles)
        (sim : Sim2) (co : Plane3) (rms : ℚ), 3 ≤ refUV.length →
      _fit_for refUV (refXYZ.map fun t => Vec2.mk t.1 t.2.1)
          (refXYZ.map fun t => t.2.2) O.svd0 O.ls0 O.sqrtO = .ok (sim, co, rms) →
      solveModel refUV refXYZ .normal O = some ⟨sim, co, false⟩) ∧
    (∀ (refUV : List Vec2) (refXYZ : List (ℚ × ℚ × ℚ)) (O : FitOracles)
        (sim : Sim2) (co : Plane3) (rms : ℚ), 3 ≤ refUV.length →
      _fit_for (mirrorU refUV) (refXYZ.map fun t => Vec2.mk t.1 t.2.1)
          (refXYZ.map fun t => t.2.2) O.svd1 O.ls1 O.sqrtO = .ok (sim, co, rms) →
      solveModel refUV refXYZ .flip O = some ⟨sim, co, true⟩) ∧
    (∀ (refUV : List Vec2) (refXYZ : List (ℚ × ℚ × ℚ)) (O : FitOracles)
        (sim0 sim1 : Sim2) (co0 co1 : Plane3) (rms0 rms1 : ℚ), 3 ≤ refUV.length →
      _fit_for refUV (refXYZ.map fun t => Vec2.mk t.1 t.2.1)
          (refXYZ.map fun t => t.2.2) O.svd0 O.ls0 O.sqrtO = .ok (sim0, co0, rms0) →
      _fit_for (mirrorU refUV) (refXYZ.map fun t => Vec2.mk t.1 t.2.1)
          (refXYZ.map fun t => t.2.2) O.svd1 O.ls1 O.sqrtO = .ok (sim1, co1, rms1) →
      solveModel refUV refXYZ .auto O
        = some (if rms1 < rms0 then ⟨sim1, co1, true⟩ else ⟨sim0, co0, false⟩)) ∧
    (∀ (P : List Vec2) (s0 : ℚ) (R0 : Mat2) (t0 : Vec2) (g : Plane3)
        (O O2 : FitOracles),
      3 ≤ P.length → R0.isOrtho → R0.det = 1 → 0 < s0 → NonCollinear P →
      (∀ a b : ℚ, 0 ≤ a → 0 ≤ b → (O.sqrtO a < O.sqrtO b ↔ a < b)) →
      (∀ a b : ℚ, 0 ≤ a → 0 ≤ b → (O2.sqrtO a < O2.sqrtO b ↔ a < b)) →
      O.svd0.U.isOrtho → O.svd0.Vt.isOrtho →
      svdSpec (covMat P (P.map (genSim s0 R0 t0))) O.svd1 →
      lstsqSpec P (P.map (_apply_plane_z g)) O.ls1 →
      svdSpec (covMat P (P.map (genSim s0 R0 t0))) O2.svd0 →
      lstsqSpec P (P.map (_apply_plane_z g)) O2.ls0 →
      solveModel (mirrorU P) (P.map fun p => ((genSim s0 R0 t0 p).x,
          (genSim s0 R0 t0 p).y, _apply_plane_z g p)) .auto O
        = some ⟨⟨s0, R0, t0⟩, g, true⟩ ∧
      solveModel P (P.map fun p => ((genSim s0 R0 t0 p).x,
          (genSim s0 R0 t0 p).y, _apply_plane_z g p)) .auto O2
        = some ⟨⟨s0, R0, t0⟩, g, false⟩ ∧
      residRaw (mirrorU P) (P.map fun p => ((genSim s0 R0 t0 p).x,
          (genSim s0 R0 t0 p).y, _apply_plane_z g p)) ⟨⟨s0, R0, t0⟩, g, true⟩
        = residRaw P (P.map fun p => ((genSim s0 R0 t0 p).x,
          (genSim s0 R0 t0 p).y, _apply_plane_z g p)) ⟨⟨s0, R0, t0⟩, g, false⟩ ∧
      residRaw (mirrorU P) (P.map fun p => ((genSim s0 R0 t0 p).x,
          (genSim s0 R0 t0 p).y, _apply_plane_z g p)) ⟨⟨s0, R0, t0⟩, g, true⟩
        = P.map fun _ => (0, 0, 0)) := by
  refine ⟨?_, ?_, ?_, ?_⟩
  · intro refUV refXYZ O sim co rms h3 hfit
    exact solveModel_normal_forced refUV refXYZ O sim co rms h3 hfit
  · intro refUV refXYZ O sim co rms h3 hfit
    exact solveModel_flip_forced refUV refXYZ O sim co rms h3 hfit
  · intro refUV refXYZ O sim0 sim1 co0 co1 rms0 rms1 h3 hfit0 hfit1
    exact solveModel_auto_rule refUV refXYZ O sim0 sim1 co0 co1 rms0 rms1 h3 hfit0 hfit1
  · intro P s0 R0 t0 g O O2 hlen hR hdet hs hnc hmono hmono2 hU0 hVt0 hsvd1 hls1
      hsvd02 hls02
    obtain ⟨h1, h2⟩ := auto_mirror_recovery P s0 R0 t0 g O O2 hlen hR hdet hs hnc
      hmono hmono2 hU0 hVt0 hsvd1 hls1 hsvd02 hls02
    refine ⟨h1, h2, ?_, residRaw_gen_true P s0 R0 t0 g⟩
    rw [residRaw_gen_true P s0 R0 t0 g, residRaw_gen_false P s0 R0 t0 g]

/-- Witness for C4: the identity configuration `(0,0), (2,0), (1,1)`;
mirroring it and refitting in `auto` yields `flipped = true` with the
generator model, while the unmirrored `auto` fit yields `flipped = false`. -/
theorem C4_orientation_selection_witness :
    solveModel (mirrorU [⟨0,0⟩, ⟨2,0⟩, ⟨1,1⟩])
        (([⟨0,0⟩, ⟨2,0⟩, ⟨1,1⟩] : List Vec2).map fun p =>
          ((genSim 1 Mat2.id ⟨0,0⟩ p).x, (genSim 1 Mat2.id ⟨0,0⟩ p).y,
            _apply_plane_z ⟨0,0,0⟩ p)) .auto
        ⟨⟨Mat2.id, 0, 0, Mat2.id⟩, ⟨Mat2.id, 2/3, 2/9, Mat2.id⟩,
         ⟨0,0,0⟩, ⟨0,0,0⟩, fun q => q⟩
      = some ⟨⟨1, Mat2.id, ⟨0,0⟩⟩, ⟨0,0,0⟩, true⟩ ∧
    solveModel [⟨0,0⟩, ⟨2,0⟩, ⟨1,1⟩]
        (([⟨0,0⟩, ⟨2,0⟩, ⟨1,1⟩] : List Vec2).map fun p =>
          ((genSim 1 Mat2.id ⟨0,0⟩ p).x, (genSim 1 Mat2.id ⟨0,0⟩ p).y,
            _apply_plane_z ⟨0,0,0⟩ p)) .auto
        ⟨⟨Mat2.id, 2/3, 2/9, Mat2.id⟩, ⟨Mat2.id, 0, 0, Mat2.id⟩,
         ⟨0,0,0⟩, ⟨0,0,0⟩, fun q => q⟩
      = some ⟨⟨1, Mat2.id, ⟨0,0⟩⟩, ⟨0,0,0⟩, false⟩ := by
  have hid : Mat2.id.isOrtho := by
    show Mat2.id.transpose * Mat2.id = Mat2.id
    norm_num [Mat2.transpose, Mat2.id, mat2_mul_def, Mat2.mul, mat2_eq_iff]
  have hsvd : svdSpec (covMat [⟨0,0⟩, ⟨2,0⟩, ⟨1,1⟩]
      (([⟨0,0⟩, ⟨2,0⟩, ⟨1,1⟩] : List Vec2).map (genSim 1 Mat2.id ⟨0,0⟩)))
      ⟨Mat2.id, 2/3, 2/9, Mat2.id⟩ := by
    refine ⟨hid, hid, by norm_num, by norm_num, ?_⟩
    norm_num [covMat, centered, centroidOf, Vec2.sub, Mat2.diag, Mat2.id,
      genSim, mat2_mul_def, Mat2.mul, mat2_eq_iff, vec2_eq_iff]
  have hls : lstsqSpec [⟨0,0⟩, ⟨2,0⟩, ⟨1,1⟩]
      (([⟨0,0⟩, ⟨2,0⟩, ⟨1,1⟩] : List Vec2).map (_apply_plane_z ⟨0,0,0⟩))
      ⟨0,0,0⟩ := by
    apply lstsq_spec_of_zero
    norm_num [err2, _apply_plane_z]
  have h := (C4_orientation_selection).2.2.2 [⟨0,0⟩, ⟨2,0⟩, ⟨1,1⟩] 1 Mat2.id
    ⟨0,0⟩ ⟨0,0,0⟩
    ⟨⟨Mat2.id, 0, 0, Mat2.id⟩, ⟨Mat2.id, 2/3, 2/9, Mat2.id⟩,
     ⟨0,0,0⟩, ⟨0,0,0⟩, fun q => q⟩
    ⟨⟨Mat2.id, 2/3, 2/9, Mat2.id⟩, ⟨Mat2.id, 0, 0, Mat2.id⟩,
     ⟨0,0,0⟩, ⟨0,0,0⟩, fun q => q⟩
    (by norm_num) hid (by norm_num [Mat2.det, Mat2.id]) (by norm_num)
    ⟨⟨0,0⟩, ⟨2,0⟩, ⟨1,1⟩, by simp, by simp, by simp,
      by norm_num [Vec2.cross, Vec2.sub]⟩
    (fun a b _ _ => Iff.rfl) (fun a b _ _ => Iff.rfl)
    hid hid hsvd hls hsvd hls
  exact ⟨h.1, h.2.1⟩

theorem filter_flatMap {α β : Type} (l : List α) (g : α → List β) (p : β → Bool) :
    (l.flatMap g).filter p = l.flatMap fun a => (g a).filter p := by
  induction l with
  | nil => simp
  | cons a t ih => simp [List.flatMap_cons, List.filter_append, ih]

theorem filterMap_flatMap {α β γ : Type} (l : List α) (g : α → List β)
    (f : β → Option γ) :
    (l.flatMap g).filterMap f = l.flatMap fun a => (g a).filterMap f := by
  induction l with
  | nil => simp
  | cons a t ih => simp [List.flatMap_cons, List.filterMap_append, ih]

theorem gc_fold_inner (minA : ℕ) (maxA : Option ℕ) (contour : ℕ → ℕ) (gno : ℕ)
    (l : List CompR) (acc : List (ℕ × ℚ × ℚ) × List ℕ × List ℕ) :
    l.foldl
      (fun acc4 sc =>
        if keepArea minA maxA sc.area then
          (acc4.1 ++ [(gno, sc.cx, sc.cy)],
            acc4.2.1 ++ (if 0 < sc.area then [sc.area] else []),
            acc4.2.2 ++ [contour sc.mask])
        else (acc4.1, acc4.2.1 ++ (if 0 < sc.area then [sc.area] else []), acc4.2.2)) acc
      = (acc.1 ++ ((l.filter fun sc => keepArea minA maxA sc.area).map
            fun sc => (gno, sc.cx, sc.cy)),
         acc.2.1 ++ l.filterMap (fun sc => if 0 < sc.area then some sc.area else none),
         acc.2.2 ++ ((l.filter fun sc => keepArea minA maxA sc.area).map
            fun sc => contour sc.mask)) := by
  induction l generalizing acc with
  | nil => simp
  | cons sc t ih =>
      simp only [List.foldl_cons]
      rw [ih]
      by_cases hk : keepArea minA maxA sc.area
      · by_cases ha : 0 < sc.area
        · simp [hk, ha, List.filter_cons, List.filterMap_cons]
        · simp [hk, ha, List.filter_cons, List.filterMap_cons]
      · by_cases ha : 0 < sc.area
        · simp [hk, ha, List.filter_cons, List.filterMap_cons]
        · simp [hk, ha, List.filter_cons, List.filterMap_cons]

theorem gc_fold_masks (relabel : ℕ → List CompR) (minA : ℕ) (maxA : Option ℕ)
    (contour : ℕ → ℕ) (gno : ℕ) (sm : List ℕ)
    (acc : List (ℕ × ℚ × ℚ) × List ℕ × List ℕ) :
    sm.foldl
      (fun acc3 m =>
        (relabel m).foldl
          (fun acc4 sc =>
            if keepArea minA maxA sc.area then
              (acc4.1 ++ [(gno, sc.cx, sc.cy)],
                acc4.2.1 ++ (if 0 < sc.area then [sc.area] else []),
                acc4.2.2 ++ [contour sc.mask])
            else (acc4.1, acc4.2.1 ++ (if 0 < sc.area then [sc.area] else []),
              acc4.2.2)) acc3) acc
      = (acc.1 ++ (sm.flatMap fun m =>
            (((relabel m).filter fun sc => keepArea minA maxA sc.area).map
              fun sc => (gno, sc.cx, sc.cy))),
         acc.2.1 ++ (sm.flatMap fun m =>
            (relabel m).filterMap fun sc => if 0 < sc.area then some sc.area else none),
         acc.2.2 ++ (sm.flatMap fun m =>
            (((relabel m).filter fun sc => keepArea minA maxA sc.area).map
              fun sc => contour sc.mask))) := by
  induction sm generalizing acc with
  | nil => simp
  | cons m t ih =>
      simp only [List.foldl_cons]
      rw [gc_fold_inner, ih]
      simp [List.flatMap_cons, List.append_assoc]

theorem gc_fold_comps (splitFn : ℕ → ℕ → List ℕ) (relabel : ℕ → List CompR)
    (contour : ℕ → ℕ) (minA : ℕ) (maxA : Option ℕ) (neck : ℕ) (gno : ℕ)
    (l : List CompR) (acc : List (ℕ × ℚ × ℚ) × List ℕ × List ℕ) :
    l.foldl
      (fun acc2 comp =>
        if (splitFn comp.mask neck).length ≤ 1 then
          if keepArea minA maxA comp.area then
            (acc2.1 ++ [(gno, comp.cx, comp.cy)],
              acc2.2.1 ++ (if 0 < comp.area then [comp.area] else []),
              acc2.2.2 ++ [contour comp.mask])
          else (acc2.1, acc2.2.1 ++ (if 0 < comp.area then [comp.area] else []),
            acc2.2.2)
        else
          (splitFn comp.mask neck).foldl
            (fun acc3 m =>
              (relabel m).foldl
                (fun acc4 sc =>
                  if keepArea minA maxA sc.area then
                    (acc4.1 ++ [(gno, sc.cx, sc.cy)],
                      acc4.2.1 ++ (if 0 < sc.area then [sc.area] else []),
                      acc4.2.2 ++ [contour sc.mask])
                  else (acc4.1, acc4.2.1 ++ (if 0 < sc.area then [sc.area] else []),
                    acc4.2.2)) acc3) acc2) acc
      = (acc.1 ++ (l.flatMap fun comp =>
            if (splitFn comp.mask neck).length ≤ 1 then
              (if keepArea minA maxA comp.area then [(gno, comp.cx, comp.cy)] else [])
            else (splitFn comp.mask neck).flatMap fun m =>
              ((relabel m).filter fun sc => keepArea minA maxA sc.area).map
                fun sc => (gno, sc.cx, sc.cy)),
         acc.2.1 ++ (l.flatMap fun comp =>
            if (splitFn comp.mask neck).length ≤ 1 then
              (if 0 < comp.area then [comp.area] else [])
            else (splitFn comp.mask neck).flatMap fun m =>
              (relabel m).filterMap fun sc => if 0 < sc.area then some sc.area else none),
         acc.2.2 ++ (l.flatMap fun comp =>
            if (splitFn comp.mask neck).length ≤ 1 then
              (if keepArea minA maxA comp.area then [contour comp.mask] else [])
            else (splitFn comp.mask neck).flatMap fun m =>
              ((relabel m).filter fun sc => keepArea minA maxA sc.area).map
                fun sc => contour sc.mask)) := by
  induction l generalizing acc with
  | nil => simp
  | cons comp t ih =>
      simp only [List.foldl_cons]
      by_cases hsp : (splitFn comp.mask neck).length ≤ 1
      · rw [if_pos hsp]
        by_cases hk : keepArea minA maxA comp.area
        · rw [if_pos hk, ih]
          simp [hsp, hk, List.flatMap_cons, List.append_assoc]
        · rw [if_neg hk, ih]
          simp [hsp, hk, List.flatMap_cons, List.append_assoc]
      · rw [if_neg hsp, gc_fold_masks, ih]
        simp [hsp, List.flatMap_cons, List.append_assoc]

theorem gc_fold_outer (splitFn : ℕ → ℕ → List ℕ) (relabel : ℕ → List CompR)
    (contour : ℕ → ℕ) (minA : ℕ) (maxA : Option ℕ) (neck : ℕ)
    (l : List (ℕ × List CompR)) (acc : List (ℕ × ℚ × ℚ) × List ℕ × List ℕ) :
    l.foldl
      (fun acc gcomps =>
        gcomps.2.foldl
          (fun acc2 comp =>
            if (splitFn comp.mask neck).length ≤ 1 then
              if keepArea minA maxA comp.area then
                (acc2.1 ++ [(gcomps.1 + 1, comp.cx, comp.cy)],
                  acc2.2.1 ++ (if 0 < comp.area then [comp.area] else []),
                  acc2.2.2 ++ [contour comp.mask])
              else (acc2.1, acc2.2.1 ++ (if 0 < comp.area then [comp.area] else []),
                acc2.2.2)
            else
              (splitFn comp.mask neck).foldl
                (fun acc3 m =>
                  (relabel m).foldl
                    (fun acc4 sc =>
                      if keepArea minA maxA sc.area then
                        (acc4.1 ++ [(gcomps.1 + 1, sc.cx, sc.cy)],
                          acc4.2.1 ++ (if 0 < sc.area then [sc.area] else []),
                          acc4.2.2 ++ [contour sc.mask])
                      else (acc4.1, acc4.2.1 ++ (if 0 < sc.area then [sc.area] else []),
                        acc4.2.2)) acc3) acc2) acc) acc
      = (acc.1 ++ (l.flatMap fun gcomps => gcomps.2.flatMap fun comp =>
            if (splitFn comp.mask neck).length ≤ 1 then
              (if keepArea minA maxA comp.area then
                [(gcomps.1 + 1, comp.cx, comp.cy)] else [])
            else (splitFn comp.mask neck).flatMap fun m =>
              ((relabel m).filter fun sc => keepArea minA maxA sc.area).map
                fun sc => (gcomps.1 + 1, sc.cx, sc.cy)),
         acc.2.1 ++ (l.flatMap fun gcomps => gcomps.2.flatMap fun comp =>
            if (splitFn comp.mask neck).length ≤ 1 then
              (if 0 < comp.area then [comp.area] else [])
            else (splitFn comp.mask neck).flatMap fun m =>
              (relabel m).filterMap fun sc => if 0 < sc.area then some sc.area else none),
         acc.2.2 ++ (l.flatMap fun gcomps => gcomps.2.flatMap fun comp =>
            if (splitFn comp.mask neck).length ≤ 1 then
              (if keepArea minA maxA comp.area then [contour comp.mask] else [])
            else (splitFn comp.mask neck).flatMap fun m =>
              ((relabel m).filter fun sc => keepArea minA maxA sc.area).map
                fun sc => contour sc.mask)) := by
  induction l generalizing acc with
  | nil => simp
  | cons a t ih =>
      simp only [List.foldl_cons]
      rw [gc_fold_comps, ih]
      simp [List.flatMap_cons, List.append_assoc]

theorem get_centroids_eq (groups : List (List CompR)) (splitFn : ℕ → ℕ → List ℕ)
    (relabel : ℕ → List CompR) (contour : ℕ → ℕ) (minA : ℕ) (maxA : Option ℕ)
    (neck : ℕ) :
    get_centroids groups splitFn relabel contour minA maxA neck
      = (((primRegions groups splitFn relabel neck).filter
            fun gc => keepArea minA maxA gc.2.area).map
            fun gc => (gc.1, gc.2.cx, gc.2.cy),
         (primRegions groups splitFn relabel neck).filterMap
            fun gc => if 0 < gc.2.area then some gc.2.area else none,
         ((primRegions groups splitFn relabel neck).filter
            fun gc => keepArea minA maxA gc.2.area).map
            fun gc => contour gc.2.mask) := by
  unfold get_centroids
  dsimp only
  rw [gc_fold_outer]
  unfold primRegions
  simp only [List.nil_append, Prod.mk.injEq]
  refine ⟨?_, ?_, ?_⟩
  · rw [filter_flatMap, List.map_flatMap]
    apply congrArg
    funext gcomps
    rw [filter_flatMap, List.map_flatMap]
    apply congrArg
    funext comp
    by_cases hsp : (splitFn comp.mask neck).length ≤ 1
    · rw [if_pos hsp, if_pos hsp]
      by_cases hk : keepArea minA maxA comp.area
      · simp [hk]
      · simp [hk]
    · rw [if_neg hsp, if_neg hsp]
      rw [filter_flatMap, List.map_flatMap]
      apply congrArg
      funext m
      rw [List.filter_map, List.map_map]
      rfl
  · rw [filterMap_flatMap]
    apply congrArg
    funext gcomps
    rw [filterMap_flatMap]
    apply congrArg
    funext comp
    by_cases hsp : (splitFn comp.mask neck).length ≤ 1
    · rw [if_pos hsp, if_pos hsp]
      by_cases ha : 0 < comp.area
      · simp [ha]
      · simp [ha]
    · rw [if_neg hsp, if_neg hsp]
      rw [filterMap_flatMap]
      apply congrArg
      funext m
      rw [List.filterMap_map]
      rfl
  · rw [filter_flatMap, List.map_flatMap]
    apply congrArg
    funext gcomps
    rw [filter_flatMap, List.map_flatMap]
    apply congrArg
    funext comp
    by_cases hsp : (splitFn comp.mask neck).length ≤ 1
    · rw [if_pos hsp, if_pos hsp]
      by_cases hk : keepArea minA maxA comp.area
      · simp [hk]
      · simp [hk]
    · rw [if_neg hsp, if_neg hsp]
      rw [filter_flatMap, List.map_flatMap]
      apply congrArg
      funext m
      rw [List.filter_map, List.map_map]
      rfl

/-- C5: a primitive region (a component, or a re-labeled sub-component when
splitting produced more than one mask) contributes a centroid to the output
list iff `min_area ≤ area` and (`max_area` unset or `area ≤ max_area`); and
when `min_area > max_area` the result list is empty for every color group
(the embedded run is total, so no exception is raised). -/
theorem C5_area_filter :
    (∀ (groups : List (List CompR)) (splitFn : ℕ → ℕ → List ℕ)
        (relabel : ℕ → List CompR) (contour : ℕ → ℕ) (minA : ℕ)
        (maxA : Option ℕ) (neck : ℕ),
      (get_centroids groups splitFn relabel contour minA maxA neck).1
        = ((primRegions groups splitFn relabel neck).filter
            fun gc => keepArea minA maxA gc.2.area).map
            fun gc => (gc.1, gc.2.cx, gc.2.cy)) ∧
    ∀ (groups : List (List CompR)) (splitFn : ℕ → ℕ → List ℕ)
        (relabel : ℕ → List CompR) (contour : ℕ → ℕ) (minA mx : ℕ) (neck : ℕ),
      mx < minA →
      (get_centroids groups splitFn relabel contour minA (some mx) neck).1 = [] := by
  constructor
  · intro groups splitFn relabel contour minA maxA neck
    rw [get_centroids_eq]
  · intro groups splitFn relabel contour minA mx neck hlt
    rw [get_centroids_eq]
    have hfil : (primRegions groups splitFn relabel neck).filter
        (fun gc => keepArea minA (some mx) gc.2.area) = [] := by
      rw [List.filter_eq_nil_iff]
      intro gc _
      simp only [keepArea, Bool.and_eq_true, decide_eq_true_eq]
      omega
    rw [hfil]
    rfl

/-- Witness for C5: a single region of area 3; with `min_area = 0` it is
kept, with `min_area = 5 > max_area = 2` the result is empty. -/
theorem C5_area_filter_witness :
    (get_centroids [[⟨3, 1, 2, 7⟩]] (fun _ _ => []) (fun _ => []) (fun m => m)
        0 none 0).1
      = (((primRegions [[⟨3, 1, 2, 7⟩]] (fun _ _ => []) (fun _ => []) 0).filter
          fun gc => keepArea 0 none gc.2.area).map
          fun gc => (gc.1, gc.2.cx, gc.2.cy)) ∧
    (get_centroids [[⟨3, 1, 2, 7⟩]] (fun _ _ => []) (fun _ => []) (fun m => m)
        5 (some 2) 0).1 = [] :=
  ⟨C5_area_filter.1 [[⟨3, 1, 2, 7⟩]] (fun _ _ => []) (fun _ => []) (fun m => m)
      0 none 0,
   C5_area_filter.2 [[⟨3, 1, 2, 7⟩]] (fun _ _ => []) (fun _ => []) (fun m => m)
      5 2 0 (by norm_num)⟩

theorem filterMap_area_pos {α : Type} (l : List (ℕ × α)) (f : ℕ × α → ℕ)
    (hpos : ∀ x ∈ l, 0 < f x) :
    l.filterMap (fun x => if 0 < f x then some (f x) else none) = l.map f := by
  induction l with
  | nil => simp
  | cons a t ih =>
      simp only [List.filterMap_cons, List.map_cons]
      rw [if_pos (hpos a (by simp))]
      rw [ih fun x hx => hpos x (by simp [hx])]

/-- C6: the raw area of every primitive region is recorded in the histogram
accumulator regardless of the min/max filter (assuming, as `cv2` guarantees,
that every component has a positive pixel count), so the histogram equals
the full list of primitive areas and does not depend on `min_area`/`max_area`;
the boundary accumulator receives contours exactly for the regions that
passed the filter. -/
theorem C6_histogram_invariant (groups : List (List CompR))
    (splitFn : ℕ → ℕ → List ℕ) (relabel : ℕ → List CompR) (contour : ℕ → ℕ)
    (minA : ℕ) (maxA : Option ℕ) (neck : ℕ)
    (hpos : ∀ gc ∈ primRegions groups splitFn relabel neck, 0 < gc.2.area) :
    (get_centroids groups splitFn relabel contour minA maxA neck).2.1
      = (primRegions groups splitFn relabel neck).map (fun gc => gc.2.area) ∧
    (get_centroids groups splitFn relabel contour minA maxA neck).2.1
      = (get_centroids groups splitFn relabel contour 0 none neck).2.1 ∧
    (get_centroids groups splitFn relabel contour minA maxA neck).2.2
      = ((primRegions groups splitFn relabel neck).filter
          fun gc => keepArea minA maxA gc.2.area).map
          fun gc => contour gc.2.mask := by
  have h1 : (get_centroids groups splitFn relabel contour minA maxA neck).2.1
      = (primRegions groups splitFn relabel neck).map fun gc => gc.2.area := by
    rw [get_centroids_eq]
    exact filterMap_area_pos _ _ hpos
  have h2 : (get_centroids groups splitFn relabel contour 0 none neck).2.1
      = (primRegions groups splitFn relabel neck).map fun gc => gc.2.area := by
    rw [get_centroids_eq]
    exact filterMap_area_pos _ _ hpos
  refine ⟨h1, by rw [h1, h2], ?_⟩
  rw [get_centroids_eq]

/-- Witness for C6: a single group with one region of area 3 whose mask id
is 7; the histogram holds exactly that area for both a restrictive and a
permissive filter, and the boundary gets the contour of the kept region. -/
theorem C6_histogram_invariant_witness :
    (get_centroids [[⟨3, 1, 2, 7⟩]] (fun _ _ => []) (fun _ => []) (fun m => m)
        5 (some 2) 0).2.1
      = (primRegions [[⟨3, 1, 2, 7⟩]] (fun _ _ => []) (fun _ => []) 0).map
          (fun gc => gc.2.area) ∧
    (get_centroids [[⟨3, 1, 2, 7⟩]] (fun _ _ => []) (fun _ => []) (fun m => m)
        5 (some 2) 0).2.1
      = (get_centroids [[⟨3, 1, 2, 7⟩]] (fun _ _ => []) (fun _ => []) (fun m => m)
          0 none 0).2.1 := by
  have h := C6_histogram_invariant [[⟨3, 1, 2, 7⟩]] (fun _ _ => []) (fun _ => [])
    (fun m => m) 5 (some 2) 0
    (by
      intro gc hgc
      unfold primRegions at hgc
      simp [List.enum_cons, List.flatMap_cons] at hgc
      rw [hgc]
      norm_num)
  exact ⟨h.1, h.2.1⟩

/-- C3: the color quantizer is deterministic.  `kmeans_posterize` seeds the
RNG with the fixed constant 12345 before calling the (deterministic) k-means
routine, so for every k-means implementation, image and level count, two
runs from arbitrary (even different) incoming RNG states produce identical
posterized images, whose dimensions equal the input dimensions. -/
theorem C3_quantizer_deterministic (km : KmeansFn) (img : ImgBuf) (levels : ℕ)
    (r1 r2 : ℕ) :
    (kmeans_posterize km img levels r1).1 = (kmeans_posterize km img levels r2).1 ∧
    (kmeans_posterize km img levels r1).1.h = img.h ∧
    (kmeans_posterize km img levels r1).1.w = img.w :=
  ⟨rfl, rfl, rfl⟩

theorem buildGrid_row (h w : ℕ) (f : ℕ → ℕ → ℕ) (i : ℕ) :
    (buildGrid h w f).getD i [] = if i < h then (List.range w).map (f i) else [] := by
  unfold buildGrid
  by_cases hi : i < h
  · rw [if_pos hi, List.getD_eq_getElem?_getD, List.getElem?_map, List.getElem?_range hi]
    rfl
  · rw [if_neg hi, List.getD_eq_default]
    simp only [List.length_map, List.length_range]
    omega

theorem getCell_buildGrid (h w : ℕ) (f : ℕ → ℕ → ℕ) (i j : ℕ) :
    getCell (buildGrid h w f) i j = if i < h ∧ j < w then f i j else 0 := by
  unfold getCell
  rw [buildGrid_row]
  by_cases hi : i < h
  · rw [if_pos hi]
    by_cases hj : j < w
    · rw [List.getD_eq_getElem?_getD, List.getElem?_map, List.getElem?_range hj]
      simp [hi, hj]
    · rw [List.getD_eq_default]
      · simp [hi, hj]
      · simp only [List.length_map, List.length_range]
        omega
  · rw [if_neg hi]
    simp [hi]

theorem maskOf_pos {markers comp : Grid} {cid h w i j : ℕ}
    (hp : 0 < getCell (maskOf markers comp cid h w) i j) :
    i < h ∧ j < w ∧ getCell markers i j = cid ∧ 0 < getCell comp i j := by
  unfold maskOf at hp
  rw [getCell_buildGrid] at hp
  split at hp
  · rename_i hb
    split at hp
    · rename_i hc
      exact ⟨hb.1, hb.2, hc.1, hc.2⟩
    · omega
  · omega

theorem maskOf_subset (markers comp : Grid) (cid h w : ℕ) :
    gridSubset (maskOf markers comp cid h w) comp :=
  fun _ _ hp => (maskOf_pos hp).2.2.2

theorem maskOf_disjoint {markers comp : Grid} {h w : ℕ} {c1 c2 : ℕ} (hne : c1 ≠ c2) :
    gridsDisjoint (maskOf markers comp c1 h w) (maskOf markers comp c2 h w) := by
  intro i j hij
  obtain ⟨-, -, h1, -⟩ := maskOf_pos hij.1
  obtain ⟨-, -, h2, -⟩ := maskOf_pos hij.2
  exact hne (h1.symm.trans h2)

theorem maskOf_unmarked (markers comp : Grid) {cid : ℕ} (h w i j : ℕ)
    (hm : getCell markers i j = 0) (hc : 1 ≤ cid) :
    getCell (maskOf markers comp cid h w) i j = 0 := by
  by_contra hne
  obtain ⟨-, -, he, -⟩ := maskOf_pos (Nat.pos_of_ne_zero hne)
  omega

theorem mem_drop_one_range {n c : ℕ} (hc : c ∈ (List.range n).drop 1) : 1 ≤ c := by
  cases n with
  | zero => simp [List.range_zero] at hc
  | succ m =>
      rw [List.range_succ_eq_map, List.drop_succ_cons, List.drop_zero] at hc
      obtain ⟨k, -, hk⟩ := List.mem_map.mp hc
      omega

theorem propagate_iterApply (comp : Grid) (h w : ℕ) :
    ∀ n m, ∃ k, k ≤ n ∧ propagate comp h w n m = iterApply (onePass comp h w) k m := by
  intro n
  induction n with
  | zero => exact fun m => ⟨0, le_refl 0, rfl⟩
  | succ n ih =>
      intro m
      by_cases hu : anyUnmarked comp m h w
      · obtain ⟨k, hk, heq⟩ := ih (onePass comp h w m)
        refine ⟨k + 1, by omega, ?_⟩
        show (if anyUnmarked comp m h w then propagate comp h w n (onePass comp h w m)
          else m) = _
        rw [if_pos hu]
        exact heq
      · refine ⟨0, Nat.zero_le _, ?_⟩
        show (if anyUnmarked comp m h w then propagate comp h w n (onePass comp h w m)
          else m) = m
        rw [if_neg hu]

theorem split_failure (comp : Grid) (neck : ℕ) (O : SplitOracles)
    (hfail : O.erode comp neck = none ∨
      (∃ er, O.erode comp neck = some er ∧ O.cc er = none) ∨
      (∃ er nl, O.erode comp neck = some er ∧ O.cc er = some nl ∧ nl.1 < 3)) :
    _split_by_neck_separation comp neck O = [comp] := by
  unfold _split_by_neck_separation
  by_cases h0 : neck = 0 ∨ gridSum comp = 0
  · rw [if_pos h0]
  · rw [if_neg h0]
    obtain hE | ⟨er, hE, hC⟩ | ⟨er, nl, hE, hC, h3⟩ := hfail
    · rw [hE]
    · rw [hE]
      dsimp only
      rw [hC]
    · rw [hE]
      dsimp only
      rw [hC]
      dsimp only
      rw [if_pos h3]

theorem split_result_cases (comp : Grid) (neck : ℕ) (O : SplitOracles) :
    _split_by_neck_separation comp neck O = [comp] ∨
    ∃ n markers,
      (((List.range n).drop 1).map fun cid =>
          maskOf markers comp cid comp.length (comp.getD 0 []).length).filter
        (fun m => 0 < gridSum m) ≠ [] ∧
      _split_by_neck_separation comp neck O
        = (((List.range n).drop 1).map fun cid =>
            maskOf markers comp cid comp.length (comp.getD 0 []).length).filter
          (fun m => 0 < gridSum m) := by
  unfold _split_by_neck_separation
  by_cases h0 : neck = 0 ∨ gridSum comp = 0
  · rw [if_pos h0]
    exact Or.inl rfl
  · rw [if_neg h0]
    cases hE : O.erode comp neck with
    | none => exact Or.inl rfl
    | some er =>
        dsimp only
        cases hC : O.cc er with
        | none => exact Or.inl rfl
        | some nl =>
            dsimp only
            by_cases h3 : nl.1 < 3
            · rw [if_pos h3]
              exact Or.inl rfl
            · rw [if_neg h3]
              by_cases hM : (((List.range nl.1).drop 1).map fun cid =>
                  maskOf (propagate comp comp.length (comp.getD 0 []).length 20
                    (initMarkers comp nl.2 nl.1 comp.length (comp.getD 0 []).length))
                    comp cid comp.length (comp.getD 0 []).length).filter
                  (fun m => 0 < gridSum m) = []
              · rw [if_pos (List.isEmpty_iff.mpr hM)]
                exact Or.inl rfl
              · rw [if_neg (fun hh => hM (List.isEmpty_iff.mp hh))]
                exact Or.inr ⟨nl.1, _, hM, rfl⟩

/-- C9: the marker-propagation loop of `_split_by_neck_separation` performs
at most 20 full-image passes — the final marker grid is `onePass` iterated
`k ≤ 20` times from the seed markers — and every pixel of the component mask
still unlabeled when the loop ends is excluded from (has value 0 in) every
returned sub-mask; the only other possible return value is the original mask
itself. -/
theorem C9_propagation_cap (comp : Grid) (neck : ℕ) (O : SplitOracles)
    (er : Grid) (nl : ℕ × Grid)
    (hneck : neck ≠ 0) (hsum : gridSum comp ≠ 0)
    (her : O.erode comp neck = some er) (hcc : O.cc er = some nl) (hn : 3 ≤ nl.1) :
    (∃ k, k ≤ 20 ∧
      propagate comp comp.length (comp.getD 0 []).length 20
          (initMarkers comp nl.2 nl.1 comp.length (comp.getD 0 []).length)
        = iterApply (onePass comp comp.length (comp.getD 0 []).length) k
            (initMarkers comp nl.2 nl.1 comp.length (comp.getD 0 []).length)) ∧
    ∀ g ∈ _split_by_neck_separation comp neck O, g = comp ∨
      ∀ i j, getCell (propagate comp comp.length (comp.getD 0 []).length 20
          (initMarkers comp nl.2 nl.1 comp.length (comp.getD 0 []).length)) i j = 0 →
        getCell g i j = 0 := by
  constructor
  · exact propagate_iterApply comp comp.length (comp.getD 0 []).length 20 _
  · intro g hg
    unfold _split_by_neck_separation at hg
    rw [if_neg (not_or.mpr ⟨hneck, hsum⟩), her] at hg
    dsimp only at hg
    rw [hcc] at hg
    dsimp only at hg
    rw [if_neg (Nat.not_lt.mpr hn)] at hg
    by_cases hM : (((List.range nl.1).drop 1).map fun cid =>
        maskOf (propagate comp comp.length (comp.getD 0 []).length 20
          (initMarkers comp nl.2 nl.1 comp.length (comp.getD 0 []).length))
          comp cid comp.length (comp.getD 0 []).length).filter
        (fun m => 0 < gridSum m) = []
    · rw [if_pos (List.isEmpty_iff.mpr hM)] at hg
      exact Or.inl (List.mem_singleton.mp hg)
    · rw [if_neg (fun hh => hM (List.isEmpty_iff.mp hh))] at hg
      obtain ⟨hmem, -⟩ := List.mem_filter.mp hg
      obtain ⟨cid, hcid, hgeq⟩ := List.mem_map.mp hmem
      refine Or.inr ?_
      intro i j hz
      rw [← hgeq]
      exact maskOf_unmarked _ comp _ _ i j hz (mem_drop_one_range hcid)

/-- Witness for C9: a 1×3 component whose eroded mask has two cores; the
propagation stabilizes within the 20-pass cap and the unlabeled-pixel
exclusion holds for the two returned sub-masks. -/
theorem C9_propagation_cap_witness :
    (∃ k, k ≤ 20 ∧
      propagate [[255,255,255]] 1 3 20 (initMarkers [[255,255,255]] [[1,0,2]] 3 1 3)
        = iterApply (onePass [[255,255,255]] 1 3) k
            (initMarkers [[255,255,255]] [[1,0,2]] 3 1 3)) ∧
    ∀ g ∈ _split_by_neck_separation [[255,255,255]] 1
        ⟨fun _ _ => some [[255,0,255]], fun _ => some (3, [[1,0,2]])⟩,
      g = [[255,255,255]] ∨
      ∀ i j, getCell (propagate [[255,255,255]] 1 3 20
          (initMarkers [[255,255,255]] [[1,0,2]] 3 1 3)) i j = 0 →
        getCell g i j = 0 :=
  C9_propagation_cap [[255,255,255]] 1
    ⟨fun _ _ => some [[255,0,255]], fun _ => some (3, [[1,0,2]])⟩
    [[255,0,255]] (3, [[1,0,2]]) (by decide) (by decide) rfl rfl (by decide)

/-- C10: for every component mask and neck value the splitter returns a
non-empty list; every returned mask is a pixel subset of the input; when more
than one mask is returned they are pairwise disjoint and each is non-empty;
and on any internal failure (erosion or connected-components raising, i.e.
the oracle returning `none`) or when fewer than 2 cores survive erosion
(`num_labels < 3`), the single-element list holding the original mask is
returned unchanged. -/
theorem C10_splitter_invariants (comp : Grid) (neck : ℕ) (O : SplitOracles) :
    _split_by_neck_separation comp neck O ≠ [] ∧
    (∀ g ∈ _split_by_neck_separation comp neck O, gridSubset g comp) ∧
    (1 < (_split_by_neck_separation comp neck O).length →
      (_split_by_neck_separation comp neck O).Pairwise gridsDisjoint ∧
      ∀ g ∈ _split_by_neck_separation comp neck O, 0 < gridSum g) ∧
    ((O.erode comp neck = none ∨
      (∃ er, O.erode comp neck = some er ∧ O.cc er = none) ∨
      (∃ er nl, O.erode comp neck = some er ∧ O.cc er = some nl ∧ nl.1 < 3)) →
      _split_by_neck_separation comp neck O = [comp]) := by
  refine ⟨?_, ?_, ?_, split_failure comp neck O⟩
  all_goals
    obtain hcase | ⟨n, markers, hne, heq⟩ := split_result_cases comp neck O
  · rw [hcase]
    exact List.cons_ne_nil comp []
  · rw [heq]
    exact hne
  · rw [hcase]
    intro g hg
    rw [List.mem_singleton.mp hg]
    exact fun i j hp => hp
  · rw [heq]
    intro g hg
    obtain ⟨hmem, -⟩ := List.mem_filter.mp hg
    obtain ⟨cid, -, hgeq⟩ := List.mem_map.mp hmem
    rw [← hgeq]
    exact maskOf_subset _ comp _ _ _
  · rw [hcase]
    intro hlen
    simp at hlen
  · rw [heq]
    intro _
    constructor
    · refine List.Pairwise.filter _ ?_
      refine List.Pairwise.map _ (fun a b hab => maskOf_disjoint hab) ?_
      exact ((List.drop_sublist 1 (List.range n)).nodup (List.nodup_range n))
    · intro g hg
      obtain ⟨-, hp⟩ := List.mem_filter.mp hg
      exact of_decide_eq_true hp

/-- Witness for C10: the concrete 1×3 component splits into two sub-masks,
which are pairwise disjoint and each non-empty. -/
theorem C10_splitter_invariants_witness :
    (_split_by_neck_separation [[255,255,255]] 1
        ⟨fun _ _ => some [[255,0,255]], fun _ => some (3, [[1,0,2]])⟩).Pairwise
      gridsDisjoint ∧
    ∀ g ∈ _split_by_neck_separation [[255,255,255]] 1
        ⟨fun _ _ => some [[255,0,255]], fun _ => some (3, [[1,0,2]])⟩, 0 < gridSum g :=
  (C10_splitter_invariants [[255,255,255]] 1
    ⟨fun _ _ => some [[255,0,255]], fun _ => some (3, [[1,0,2]])⟩).2.2.1 (by decide)

theorem roundHalfEven_int (n : ℤ) : roundHalfEven (n : ℚ) = n := by
  unfold roundHalfEven
  norm_num [Int.floor_intCast]

theorem dispRound_int (n : ℤ) (dp : ℕ) : dispRound (n : ℚ) dp = n := by
  unfold dispRound
  by_cases hdp : 0 < dp
  · rw [if_pos hdp]
    unfold round_to_decimals
    have h1 : (n : ℚ) * 10 ^ dp = ((n * 10 ^ dp : ℤ) : ℚ) := by push_cast; ring
    rw [h1, roundHalfEven_int]
    push_cast
    rw [mul_div_assoc, div_self (by positivity), mul_one]
  · rw [if_neg hdp, roundHalfEven_int]

theorem calcCells_identity_inst (d1 d2 d3 : ℕ) :
    calcCells [(1, 5, 7)] ⟨⟨1, Mat2.id, ⟨0, 0⟩⟩, ⟨0, 0, 0⟩, false⟩ d1 d2 d3
      = [(5, 7, 0)] := by
  have h5 : dispRound (5 : ℚ) d1 = 5 := by exact_mod_cast dispRound_int 5 d1
  have h7 : dispRound (7 : ℚ) d2 = 7 := by exact_mod_cast dispRound_int 7 d2
  have h0 : dispRound (0 : ℚ) d3 = 0 := by exact_mod_cast dispRound_int 0 d3
  norm_num [calcCells, _apply_similarity_2d, _apply_plane_z, Mat2.mulVec, Mat2.id,
    Vec2.smul, Vec2.add, Prod.mk.injEq, h5, h7, h0]

theorem runCalib_identity_inst :
    (runCalib [some ⟨0, 0⟩, some ⟨2, 0⟩, some ⟨1, 1⟩]
        [⟨⟨"0", some 0⟩, ⟨"0", some 0⟩, ⟨"0", some 0⟩⟩,
         ⟨⟨"2", some 2⟩, ⟨"0", some 0⟩, ⟨"0", some 0⟩⟩,
         ⟨⟨"1", some 1⟩, ⟨"1", some 1⟩, ⟨"0", some 0⟩⟩]
        [(1, 5, 7)] .normal
        ⟨⟨Mat2.id, 2/3, 2/9, Mat2.id⟩, ⟨Mat2.id, 2/3, 2/9, Mat2.id⟩,
         ⟨0, 0, 0⟩, ⟨0, 0, 0⟩, fun q => q⟩).calcv = [some (5, 7, 0)] := by
  have hcol : collectRefs [some ⟨0, 0⟩, some ⟨2, 0⟩, some ⟨1, 1⟩]
      [⟨⟨"0", some 0⟩, ⟨"0", some 0⟩, ⟨"0", some 0⟩⟩,
       ⟨⟨"2", some 2⟩, ⟨"0", some 0⟩, ⟨"0", some 0⟩⟩,
       ⟨⟨"1", some 1⟩, ⟨"1", some 1⟩, ⟨"0", some 0⟩⟩] 10
      = ⟨[⟨0, 0⟩, ⟨2, 0⟩, ⟨1, 1⟩], [(0, 0, 0), (2, 0, 0), (1, 1, 0)], [0, 1, 2],
         ["0", "2", "1"], ["0", "0", "1"], ["0", "0", "0"]⟩ := rfl
  have hTxy : ([(0, 0, 0), (2, 0, 0), (1, 1, 0)] : List (ℚ × ℚ × ℚ)).map
        (fun t => Vec2.mk t.1 t.2.1)
      = ([⟨0, 0⟩, ⟨2, 0⟩, ⟨1, 1⟩] : List Vec2).map (genSim 1 Mat2.id ⟨0, 0⟩) := by
    norm_num [genSim, Mat2.id, vec2_eq_iff]
  have hTz : ([(0, 0, 0), (2, 0, 0), (1, 1, 0)] : List (ℚ × ℚ × ℚ)).map
        (fun t => t.2.2)
      = ([⟨0, 0⟩, ⟨2, 0⟩, ⟨1, 1⟩] : List Vec2).map (_apply_plane_z ⟨0, 0, 0⟩) := by
    norm_num [_apply_plane_z]
  have hfit := fit_for_recovers [⟨0, 0⟩, ⟨2, 0⟩, ⟨1, 1⟩] 1 Mat2.id ⟨0, 0⟩
    ⟨0, 0, 0⟩ ⟨Mat2.id, 2/3, 2/9, Mat2.id⟩ ⟨0, 0, 0⟩ (fun q => q)
    (by norm_num)
    (by show Mat2.id.transpose * Mat2.id = Mat2.id
        norm_num [Mat2.transpose, Mat2.id, mat2_mul_def, Mat2.mul, mat2_eq_iff])
    (by norm_num [Mat2.det, Mat2.id])
    (by norm_num)
    ⟨⟨0, 0⟩, ⟨2, 0⟩, ⟨1, 1⟩, by simp, by simp, by simp,
      by norm_num [Vec2.cross, Vec2.sub]⟩
    (by refine ⟨?_, ?_, by norm_num, by norm_num, ?_⟩
        · show Mat2.id.transpose * Mat2.id = Mat2.id
          norm_num [Mat2.transpose, Mat2.id, mat2_mul_def, Mat2.mul, mat2_eq_iff]
        · show Mat2.id.transpose * Mat2.id = Mat2.id
          norm_num [Mat2.transpose, Mat2.id, mat2_mul_def, Mat2.mul, mat2_eq_iff]
        · norm_num [covMat, centered, centroidOf, Vec2.sub, Mat2.diag, Mat2.id,
            genSim, mat2_mul_def, Mat2.mul, mat2_eq_iff, vec2_eq_iff])
    (by apply lstsq_spec_of_zero
        norm_num [err2, _apply_plane_z])
  have hsolve : solveModel [⟨0, 0⟩, ⟨2, 0⟩, ⟨1, 1⟩] [(0, 0, 0), (2, 0, 0), (1, 1, 0)]
      .normal
      ⟨⟨Mat2.id, 2/3, 2/9, Mat2.id⟩, ⟨Mat2.id, 2/3, 2/9, Mat2.id⟩,
       ⟨0, 0, 0⟩, ⟨0, 0, 0⟩, fun q => q⟩
      = some ⟨⟨1, Mat2.id, ⟨0, 0⟩⟩, ⟨0, 0, 0⟩, false⟩ := by
    unfold solveModel
    rw [if_neg (by norm_num)]
    dsimp only
    rw [hTxy, hTz, hfit]
  unfold runCalib
  dsimp only
  rw [hcol]
  dsimp only
  rw [hsolve]
  dsimp only
  rw [calcCells_identity_inst]
  rfl

/-- C7 (code bug): the exported text does have the literal header and one
1-indexed row per centroid, but the three stage fields are read from table
rows 4, 5 and 6, while the centroid table has only 5 rows (0-4) with the
calibrated stage coordinates in rows 2-4.  In a concrete calibrated run
whose predicted stage coordinates are `(5, 7, 0)`, the exported row carries
`Stage X = 0` (the `Calc.Z` value) and blank `Stage Y`/`Stage Z` instead of
`5`, `7`, `0`. -/
theorem C7_export_reads_wrong_rows :
    (∀ (cents : List (ℕ × ℚ × ℚ)) (tbl : ℕ → ℕ → Option ℚ) (n : ℕ),
      (export_centroids cents tbl n).1 = "No,Group,Stage X,Stage Y,Stage Z" ∧
      (export_centroids cents tbl n).2.length = cents.length ∧
      ∀ i : ℕ, i < cents.length →
        ((export_centroids cents tbl n).2.getD i ⟨0, 0, none, none, none⟩).no = i + 1) ∧
    (runCalib [some ⟨0, 0⟩, some ⟨2, 0⟩, some ⟨1, 1⟩]
        [⟨⟨"0", some 0⟩, ⟨"0", some 0⟩, ⟨"0", some 0⟩⟩,
         ⟨⟨"2", some 2⟩, ⟨"0", some 0⟩, ⟨"0", some 0⟩⟩,
         ⟨⟨"1", some 1⟩, ⟨"1", some 1⟩, ⟨"0", some 0⟩⟩]
        [(1, 5, 7)] .normal
        ⟨⟨Mat2.id, 2/3, 2/9, Mat2.id⟩, ⟨Mat2.id, 2/3, 2/9, Mat2.id⟩,
         ⟨0, 0, 0⟩, ⟨0, 0, 0⟩, fun q => q⟩).calcv = [some (5, 7, 0)] ∧
    (export_centroids [(1, 5, 7)]
        (tableRight [(1, 5, 7)]
          (runCalib [some ⟨0, 0⟩, some ⟨2, 0⟩, some ⟨1, 1⟩]
            [⟨⟨"0", some 0⟩, ⟨"0", some 0⟩, ⟨"0", some 0⟩⟩,
             ⟨⟨"2", some 2⟩, ⟨"0", some 0⟩, ⟨"0", some 0⟩⟩,
             ⟨⟨"1", some 1⟩, ⟨"1", some 1⟩, ⟨"0", some 0⟩⟩]
            [(1, 5, 7)] .normal
            ⟨⟨Mat2.id, 2/3, 2/9, Mat2.id⟩, ⟨Mat2.id, 2/3, 2/9, Mat2.id⟩,
             ⟨0, 0, 0⟩, ⟨0, 0, 0⟩, fun q => q⟩).calcv) 1).2
      = [⟨1, 1, some 0, none, none⟩] ∧
    (⟨1, 1, some 0, none, none⟩ : ExpRow) ≠ ⟨1, 1, some 5, some 7, some 0⟩ := by
  refine ⟨?_, runCalib_identity_inst, ?_, ?_⟩
  · intro cents tbl n
    refine ⟨rfl, by simp [export_centroids], ?_⟩
    intro i hi
    unfold export_centroids
    dsimp only
    rw [List.getD_eq_getElem?_getD, List.getElem?_map,
      List.getElem?_eq_getElem (by simpa [List.enum_length] using hi)]
    dsimp only [Option.map_some', Option.getD_some]
    rw [List.getElem_enum]
    split <;> rfl
  · rw [runCalib_identity_inst]
    rfl
  · intro h
    rw [ExpRow.mk.injEq] at h
    norm_num at h

/-- C8: display rounding policy.  Structurally, when a model is solved the
`Calc.X/Y/Z` cells are rounded at the precision `dpOf` inferred per axis
from the user's typed observation strings (`max_decimal_places`), and the
residual cells are produced by `residCells`, which rounds each residual
column at that column's `_decimals_for_sig` precision.  Semantically,
`_decimals_for_sig` is capped at 4 decimal places, an all-zero column gets
3, and whenever the clamp does not bind (`-3 ≤ log10(maxabs) ≤ 1`) the
chosen precision shows the largest magnitude with exactly 2 significant
digits (`10 ≤ maxabs·10^dp < 100`); two concrete instances evaluate the
policy. -/
theorem C8_display_rounding :
    (∀ (refPts : List (Option Vec2)) (refObs : List Obs3)
        (centroids : List (ℕ × ℚ × ℚ)) (mode : FlipMode) (O : FitOracles)
        (m : CalibModel),
      solveModel (collectRefs refPts refObs 10).uv (collectRefs refPts refObs 10).xyz
          mode O = some m →
      (runCalib refPts refObs centroids mode O).calcv
        = (calcCells centroids m
            (dpOf (collectRefs refPts refObs 10).xs)
            (dpOf (collectRefs refPts refObs 10).ys)
            (dpOf (collectRefs refPts refObs 10).zs)).map some ∧
      ((collectRefs refPts refObs 10).cols.isEmpty = false →
        (runCalib refPts refObs centroids mode O).resid
          = residCells (collectRefs refPts refObs 10) m O.sqrtO 10)) ∧
    (∀ arr : List ℚ, _decimals_for_sig arr ≤ 4) ∧
    (∀ arr : List ℚ, maxAbs arr = 0 → _decimals_for_sig arr = 3) ∧
    (∀ arr : List ℚ, 0 < maxAbs arr →
      -3 ≤ Int.log 10 (maxAbs arr) → Int.log 10 (maxAbs arr) ≤ 1 →
      10 ≤ maxAbs arr * 10 ^ (_decimals_for_sig arr) ∧
      maxAbs arr * 10 ^ (_decimals_for_sig arr) < 100) ∧
    _decimals_for_sig [(1 : ℚ)] = 1 ∧
    _decimals_for_sig [(0 : ℚ)] = 3 := by
  refine ⟨?_, ?_, ?_, ?_, ?_, ?_⟩
  · intro refPts refObs centroids mode O m hm
    unfold runCalib
    dsimp only
    rw [hm]
    dsimp only
    refine ⟨rfl, ?_⟩
    intro hcols
    rw [hcols]
    simp
  · intro arr
    unfold _decimals_for_sig
    dsimp only
    split
    · omega
    · omega
  · intro arr h
    unfold _decimals_for_sig
    dsimp only
    rw [if_pos h]
  · intro arr hpos hlo hhi
    have hd : ((_decimals_for_sig arr : ℕ) : ℤ) = 1 - Int.log 10 (maxAbs arr) := by
      unfold _decimals_for_sig
      dsimp only
      rw [if_neg (ne_of_gt hpos)]
      omega
    have h1 := @Int.zpow_log_le_self ℚ _ _ 10 (maxAbs arr) (by norm_num) hpos
    have h2 := @Int.lt_zpow_succ_log_self ℚ _ _ 10 (by norm_num) (maxAbs arr)
    have hten : ((10 : ℕ) : ℚ) = (10 : ℚ) := by norm_num
    rw [hten] at h1 h2
    have hp : (0 : ℚ) < (10 : ℚ) ^ (1 - Int.log 10 (maxAbs arr)) :=
      zpow_pos (by norm_num) _
    have hnpow : (10 : ℚ) ^ (_decimals_for_sig arr)
        = (10 : ℚ) ^ (1 - Int.log 10 (maxAbs arr)) := by
      rw [← zpow_natCast, hd]
    have hcomb1 : (10 : ℚ) ^ (Int.log 10 (maxAbs arr))
        * (10 : ℚ) ^ (1 - Int.log 10 (maxAbs arr)) = 10 := by
      rw [← zpow_add₀ (by norm_num : (10 : ℚ) ≠ 0)]
      have he : Int.log 10 (maxAbs arr) + (1 - Int.log 10 (maxAbs arr)) = 1 := by ring
      rw [he, zpow_one]
    have hcomb2 : (10 : ℚ) ^ (Int.log 10 (maxAbs arr) + 1)
        * (10 : ℚ) ^ (1 - Int.log 10 (maxAbs arr)) = 100 := by
      rw [← zpow_add₀ (by norm_num : (10 : ℚ) ≠ 0)]
      have he : Int.log 10 (maxAbs arr) + 1 + (1 - Int.log 10 (maxAbs arr)) = 2 := by
        ring
      rw [he]
      norm_num
    constructor
    · rw [hnpow]
      calc (10 : ℚ) = (10 : ℚ) ^ (Int.log 10 (maxAbs arr))
            * (10 : ℚ) ^ (1 - Int.log 10 (maxAbs arr)) := hcomb1.symm
        _ ≤ maxAbs arr * (10 : ℚ) ^ (1 - Int.log 10 (maxAbs arr)) :=
            mul_le_mul_of_nonneg_right h1 hp.le
    · rw [hnpow]
      calc maxAbs arr * (10 : ℚ) ^ (1 - Int.log 10 (maxAbs arr))
          < (10 : ℚ) ^ (Int.log 10 (maxAbs arr) + 1)
            * (10 : ℚ) ^ (1 - Int.log 10 (maxAbs arr)) :=
            mul_lt_mul_of_pos_right h2 hp
        _ = 100 := hcomb2
  · have hm : maxAbs [(1 : ℚ)] = 1 := by norm_num [maxAbs]
    unfold _decimals_for_sig
    dsimp only
    rw [hm, if_neg (by norm_num : (1 : ℚ) ≠ 0), Int.log_one_right]
    omega
  · have hm : maxAbs [(0 : ℚ)] = 0 := by norm_num [maxAbs]
    unfold _decimals_for_sig
    dsimp only
    rw [hm, if_pos rfl]
